import Mathlib

/-!
Verification development for the stimm voice-agent broker.

Shallow embedding of the conversation-orchestration core and the
product-catalog RAG sync pipeline, translated from the Python source:

* `ProductSync`   — src/services/tools/product_sync_service.py
* `RagManager`    — src/services/tools/product_rag_manager.py
* `RagSync`       — src/services/tools/product_rag_sync.py
* `OrderLookup`   — src/services/tools/integrations/order_lookup/base.py
                    and .../order_lookup/woocommerce.py
* `Provider`      — src/services/llm/providers/openai_compatible_provider.py
* `Chatbot`       — src/services/rag/chatbot_service.py and
                    src/services/tools/tool_executor.py

Python dicts with a fixed key set become structures; nullable values become
`Option`; dict-shaped buffers keyed by insertion order become association
lists; async generators become functions from the (finite) input stream to
the list of yielded items; unbounded `while` loops become fuel-indexed
recursions (the fuel needed is proved, or the absence of sufficient fuel is
itself the refutation).
-/

namespace ProductSync

/-- The `product_data` dict built in `ProductSyncService.sync_products_to_db`
(lines 154-166): the content fields of one product as fetched from the
source integration.  Nullable entries are `Option String`; `extra_data` is
represented by the three components that `compute_content_hash` reads from
it (`on_sale`, `regular_price`, `attributes`). -/
structure ProductData where
  name : Option String
  description : Option String
  long_description : Option String
  price : Option String
  currency : Option String
  category : Option String
  sku : Option String
  url : Option String
  image_url : Option String
  in_stock : Bool
  on_sale : Bool
  regular_price : Option String
  attributes : List (String × List String)
deriving DecidableEq

/-- Python renders a `None` dict value as the string `None` when it is
passed through `str` inside the `"|".join`. -/
def pyStr : Option String → String
  | some s => s
  | none => "None"

/-- `compute_content_hash` (product_sync_service.py lines 27-56).  The
SHA-256 digest is modelled by its preimage: the pipe-joined string of the
relevant fields.  The pipeline only ever compares hashes for equality, and
the digest is a deterministic function of this string, so equality of the
modelled hashes tracks equality of the real ones. -/
def compute_content_hash (p : ProductData) : String :=
  let base : List String :=
    [ pyStr p.name, pyStr p.description, pyStr p.long_description,
      pyStr p.price, pyStr p.currency, pyStr p.category, pyStr p.sku,
      (if p.in_stock then "True" else "False"), pyStr p.url ]
  let withSale :=
    if p.on_sale then base ++ [pyStr p.regular_price, "on_sale"] else base
  let withAttrs :=
    withSale ++ p.attributes.map (fun a => a.1 ++ ":" ++ String.intercalate "," a.2)
  String.intercalate "|" withAttrs

/-- One product as returned by `integration.fetch_all_products`:
`id` is `str(product.id)` (the external id), `data` the content fields. -/
structure SourceProduct where
  id : String
  data : ProductData
deriving DecidableEq

/-- A row of the `products` table for one agent tool.  The DB primary key
`Product.id` is modelled by `external_id`, which is equally unique per
agent tool (`UNIQUE(agent_tool_id, external_id)`); timestamp columns do not
participate in any claim and are omitted. -/
structure ProductRow where
  external_id : String
  data : ProductData
  content_hash : String
  rag_indexed : Bool
  qdrant_point_id : Option String
deriving DecidableEq

/-- The `stats` dict of `sync_products_to_db`. -/
structure SyncStats where
  new : Nat
  updated : Nat
  unchanged : Nat
  deleted : Nat
  total : Nat
deriving DecidableEq

def initStats (total : Nat) : SyncStats :=
  { new := 0, updated := 0, unchanged := 0, deleted := 0, total := total }

/-- Insertion of a fresh product (lines 195-214): `rag_indexed=False`,
`qdrant_point_id` left NULL. -/
def newRow (p : SourceProduct) : ProductRow :=
  { external_id := p.id, data := p.data,
    content_hash := compute_content_hash p.data,
    rag_indexed := false, qdrant_point_id := none }

/-- In-place update of an existing row on content change (lines 175-191):
all content fields and the hash are replaced and `rag_indexed` reset to
`False`; `qdrant_point_id` is untouched. -/
def updateRow (q : ProductRow) (p : SourceProduct) : ProductRow :=
  { q with data := p.data, content_hash := compute_content_hash p.data,
           rag_indexed := false }

/-- The upsert pass over the de-duplicated product list (lines 144-218).
Per product: unseen `external_id` inserts, a changed `content_hash`
updates, an equal hash is a no-op; the per-100 batching only controls
commit points and is invisible to the resulting state. -/
def syncUpserts : List ProductRow → SyncStats → List SourceProduct →
    List ProductRow × SyncStats
  | db, s, [] => (db, s)
  | db, s, p :: rest =>
    match db.find? (fun r => r.external_id = p.id) with
    | none =>
        syncUpserts (db ++ [newRow p]) { s with new := s.new + 1 } rest
    | some r =>
        if r.content_hash = compute_content_hash p.data then
          syncUpserts db { s with unchanged := s.unchanged + 1 } rest
        else
          syncUpserts
            (db.map (fun q => if q.external_id = p.id then updateRow q p else q))
            { s with updated := s.updated + 1 } rest

/-- Key order of the `products_by_id` dict (line 133-135): external ids in
order of first occurrence. -/
def firstOccIds : List SourceProduct → List String
  | [] => []
  | p :: rest => p.id :: (firstOccIds rest).filter (fun i => i ≠ p.id)

/-- De-duplication by external id keeping the last occurrence
(lines 132-136): `products_by_id` dict values in key order. -/
def dedupeKeepLast (ps : List SourceProduct) : List SourceProduct :=
  (firstOccIds ps).filterMap (fun i => (ps.filter (fun p => p.id = i)).getLast?)

/-- `ProductSyncService.sync_products_to_db` (lines 86-248): de-duplicate,
upsert every unique product, then delete every pre-existing row whose
`external_id` was not seen in this sync.  The deletion (lines 220-224) is
unconditional: the function receives no flag telling a full sync from an
incremental one. -/
def sync_products_to_db (db : List ProductRow) (ps : List SourceProduct) :
    List ProductRow × SyncStats :=
  let uniq := dedupeKeepLast ps
  let seen := uniq.map (fun p => p.id)
  let folded := syncUpserts db (initStats ps.length) uniq
  let deletedCount := (db.filter (fun r => !seen.contains r.external_id)).length
  (folded.1.filter (fun r => seen.contains r.external_id),
   { folded.2 with deleted := deletedCount })

/-- Dict lookup `qdrant_point_ids.get(product_id)` — `None` when absent. -/
def lookupAssoc (m : List (String × String)) (k : String) : Option String :=
  (m.find? (fun e => e.1 = k)).map (fun e => e.2)

/-- `session.query(Product).filter(Product.id == product_id).first()`
followed by the three field assignments (lines 292-297): only the first
matching row is touched. -/
def markFirst (pid : String) (qmap : List (String × String)) :
    List ProductRow → List ProductRow
  | [] => []
  | r :: rs =>
      if r.external_id = pid then
        { r with rag_indexed := true, qdrant_point_id := lookupAssoc qmap pid } :: rs
      else
        r :: markFirst pid qmap rs

/-- `ProductSyncService.mark_products_indexed` (lines 277-301): for each
given product id set `rag_indexed=True` and `qdrant_point_id` to the dict
lookup, which yields NULL for an unmapped id. -/
def mark_products_indexed (db : List ProductRow) (product_ids : List String)
    (qmap : List (String × String)) : List ProductRow :=
  product_ids.foldl (fun db pid => markFirst pid qmap db) db

/-- Rows awaiting Stage B: `rag_indexed == False`
(`get_products_needing_indexing`, `index_pending_products` query). -/
def pendingOf (db : List ProductRow) : List ProductRow :=
  db.filter (fun r => !r.rag_indexed)

/-- The sync-relevant identity of a row: its external id and content
hash.  Stage B marking changes neither, which is what makes a repeated
full sync recognise every product as unchanged. -/
def rowCore (r : ProductRow) : String × String :=
  (r.external_id, r.content_hash)

end ProductSync

namespace RagManager

open ProductSync

/-- Deterministic Qdrant point id
`uuid5(NAMESPACE_URL, "product:{agent_id}:{external_id}")`
(product_rag_manager.py line 155).  The name-based UUID is a deterministic
injective-by-design function of the seed; it is modelled by the seed
string itself. -/
def point_id (agent_id external_id : String) : String :=
  "product:" ++ agent_id ++ ":" ++ external_id

/-- Upserted point ids for one batch: one point per pending product
(`zip(pending_products, embeddings)` pairs each row with its embedding;
the embedder returns one vector per text). -/
def batchPointIds (agent_id : String) (batch : List ProductRow) : List String :=
  batch.map (fun p => point_id agent_id p.external_id)

/-- Success path of one Stage B batch on the products table (lines
176-185): every row of the batch gets `rag_indexed=True` and its
deterministic `qdrant_point_id`.  The ORM mutates the fetched row objects
directly; rows are identified here by `external_id`, unique per agent
tool. -/
def markBatch (agent_id : String) (db : List ProductRow)
    (batch : List ProductRow) : List ProductRow :=
  db.map (fun r =>
    if batch.any (fun b => b.external_id = r.external_id) then
      { r with rag_indexed := true,
               qdrant_point_id := some (point_id agent_id r.external_id) }
    else r)

/-- State threaded through the `while True` loop of
`index_pending_products`: the products table, the vector store as the set
of point ids it holds, and the `stats` dict. -/
structure StageBState where
  db : List ProductRow
  vs : List String
  indexed : Nat
  failed : Nat
  batches : Nat
deriving DecidableEq

/-- The `while True` loop of `index_pending_products` (lines 125-197),
fuel-indexed.  Per iteration: re-query up to `batch_size` rows with
`rag_indexed=False`; stop when none; otherwise embed, upsert and mark the
batch — on an exception (`fail` decides whether this batch raises) the
flag updates are rolled back, `stats.failed` grows by the batch size and
the loop continues.  The boolean result tells whether the loop exited
through its `break` (`True`) or ran out of fuel (`False`). -/
def indexLoop (agent_id : String) (fail : List ProductRow → Bool)
    (batch_size : Nat) : Nat → StageBState → StageBState × Bool
  | 0, st => (st, false)
  | fuel + 1, st =>
    let pending := (pendingOf st.db).take batch_size
    if pending.isEmpty then (st, true)
    else if fail pending then
      indexLoop agent_id fail batch_size fuel
        { st with failed := st.failed + pending.length }
    else
      indexLoop agent_id fail batch_size fuel
        { st with
            db := markBatch agent_id st.db pending,
            vs := st.vs ++ batchPointIds agent_id pending,
            indexed := st.indexed + pending.length,
            batches := st.batches + 1 }

/-- The spec invariant for one row: `rag_indexed=true` implies a non-null
`qdrant_point_id` naming a point that exists in the vector store. -/
def rowOk (vs : List String) (r : ProductRow) : Bool :=
  !r.rag_indexed ||
    (match r.qdrant_point_id with
     | some pid => vs.contains pid
     | none => false)

/-- The spec invariant checked against the code, over the whole table. -/
def ragInvariantB (db : List ProductRow) (vs : List String) : Bool :=
  db.all (rowOk vs)

end RagManager

namespace RagSync

/-- Choice of `modified_after` in
`ProductRagSyncService.sync_products_for_agent` (product_rag_sync.py
lines 163-167): when a last-sync timestamp is recorded and the sync is not
forced, only products modified after it are fetched (incremental sync);
`""` models an unset/falsy timestamp. -/
def modified_after_arg (last_sync : Option String) (force : Bool) :
    Option String :=
  match last_sync with
  | some t => if t ≠ "" ∧ ¬force then some t else none
  | none => none

end RagSync

namespace OrderLookup

/-- Python truthiness of an optional string parameter: present and
non-empty. -/
def truthyStr : Option String → Bool
  | some s => s ≠ ""
  | none => false

/-- `OrderItem` (base.py lines 16-34).  Numeric values undergo no
arithmetic anywhere in the lookup path and are carried opaquely as their
decimal rendering. -/
structure OrderItem where
  name : String
  quantity : Nat
  price : Option String
  sku : Option String
deriving DecidableEq

/-- `OrderItem.to_dict`: `price` kept when present, `sku` only when
truthy. -/
structure ItemDict where
  name : String
  quantity : Nat
  price : Option String
  sku : Option String
deriving DecidableEq

def OrderItem.to_dict (it : OrderItem) : ItemDict :=
  { name := it.name, quantity := it.quantity, price := it.price,
    sku := if truthyStr it.sku then it.sku else none }

/-- `OrderLookupResult` (base.py lines 37-54). -/
structure OrderLookupResult where
  order_id : String
  status : String
  customer_email : Option String
  customer_phone : Option String
  customer_name : Option String
  total : Option String
  currency : Option String
  created_at : Option String
  shipping_address : Option String
  tracking_number : Option String
  tracking_url : Option String
  items : List OrderItem
deriving DecidableEq

/-- The dict produced by `OrderLookupResult.to_dict` (lines 56-80): a key
is present exactly when the source attribute is truthy (`total` whenever
not None, `items` only when non-empty). -/
structure OrderDict where
  order_id : String
  status : String
  customer_name : Option String
  customer_email : Option String
  total : Option String
  currency : Option String
  created_at : Option String
  shipping_address : Option String
  tracking_number : Option String
  tracking_url : Option String
  items : Option (List ItemDict)
deriving DecidableEq

def keepTruthy (o : Option String) : Option String :=
  if truthyStr o then o else none

def OrderLookupResult.to_dict (r : OrderLookupResult) : OrderDict :=
  { order_id := r.order_id, status := r.status,
    customer_name := keepTruthy r.customer_name,
    customer_email := keepTruthy r.customer_email,
    total := r.total,
    currency := keepTruthy r.currency,
    created_at := keepTruthy r.created_at,
    shipping_address := keepTruthy r.shipping_address,
    tracking_number := keepTruthy r.tracking_number,
    tracking_url := keepTruthy r.tracking_url,
    items := if r.items.isEmpty then none
             else some (r.items.map OrderItem.to_dict) }

/-- Python `str.lower()` over the character list (kernel-friendly form of
lowercasing; the compared identifiers are ASCII). -/
def pyLower (s : String) : String :=
  String.mk (s.data.map Char.toLower)

/-- Python `str.strip()`: drop whitespace from both ends. -/
def pyStrip (s : String) : String :=
  String.mk
    (((s.data.dropWhile Char.isWhitespace).reverse.dropWhile
        Char.isWhitespace).reverse)

/-- Python `''.join(filter(str.isdigit, s))`. -/
def digitsOnly (s : String) : String :=
  String.mk (s.data.filter Char.isDigit)

/-- Python slice `s[-10:]`: the last ten characters, or all of them when
the string is shorter. -/
def lastTen (s : String) : String :=
  String.mk (s.data.drop (s.data.length - 10))

/-- `OrderLookupResult.verify_customer` (base.py lines 82-105): an email
matches case-insensitively after stripping; a phone matches when both
sides agree on their last ten digits and at least ten digits were
provided. -/
def verify_customer (r : OrderLookupResult)
    (email phone : Option String) : Bool :=
  let emailOk :=
    match email, r.customer_email with
    | some e, some ce =>
        e ≠ "" && ce ≠ "" && (pyStrip (pyLower e) = pyStrip (pyLower ce))
    | _, _ => false
  let phoneOk :=
    match phone, r.customer_phone with
    | some p, some cp =>
        p ≠ "" && cp ≠ "" &&
          (lastTen (digitsOnly cp) = lastTen (digitsOnly p)
            && 10 ≤ (digitsOnly p).length)
    | _, _ => false
  emailOk || phoneOk

/-- Result map of `BaseOrderLookupIntegration.execute`: each optional key
is present only on the paths that set it. -/
structure ExecResult where
  success : Bool
  found : Option Bool := none
  verified : Option Bool := none
  message : Option String := none
  order : Option OrderDict := none
  orders : Option (List OrderDict) := none
  count : Option Nat := none
  error : Option String := none
deriving DecidableEq

/-- `BaseOrderLookupIntegration.execute` (base.py lines 208-280).  The two
abstract lookups are parameters; an exception inside either is an `Except`
error and becomes `{success:false, error}`. -/
def execute (order_number customer_email customer_phone : Option String)
    (lookupByNumber : String → Except String (Option OrderLookupResult))
    (lookupByEmail : String → Except String (List OrderLookupResult)) :
    ExecResult :=
  if truthyStr order_number then
    let onum := order_number.getD ""
    match lookupByNumber onum with
    | .error e => { success := false, error := some e }
    | .ok (some result) =>
        if truthyStr customer_email || truthyStr customer_phone then
          if verify_customer result customer_email customer_phone then
            { success := true, order := some result.to_dict,
              found := some true, verified := some true }
          else
            { success := true, found := some true, verified := some false,
              message := some ("Order " ++ onum ++ " found but the provided email/phone does not match our records. Please verify your information.") }
        else
          { success := true, found := some true, verified := some false,
            message := some ("Order " ++ onum ++ " found. For security, please provide your email address or phone number to verify your identity.") }
    | .ok none =>
        { success := true, found := some false,
          message := some ("No order found with number " ++ onum) }
  else if truthyStr customer_email then
    match lookupByEmail (customer_email.getD "") with
    | .error e => { success := false, error := some e }
    | .ok results =>
        { success := true, orders := some (results.map OrderLookupResult.to_dict),
          count := some results.length }
  else
    { success := false,
      error := some "Order number is required. Please also provide your email or phone number for verification." }

/-- `WooCommerceOrderLookup.lookup_by_email` (woocommerce.py lines
152-185): the store answers the `search=email, per_page=limit` query with
a page of at most `limit` parsed orders (`page`); the integration keeps
only those whose billing email equals the queried one
case-insensitively (a missing billing email compares as `""`). -/
def wc_lookup_by_email (page : List OrderLookupResult) (email : String) :
    List OrderLookupResult :=
  page.filter (fun o => pyLower (o.customer_email.getD "") = pyLower email)

end OrderLookup

namespace Provider

/-- One element of a `delta.tool_calls` array in a streamed chunk
(openai_compatible_provider.py lines 246-265).  `index` defaults to 0 when
absent; the sub-fields are `""` when absent, matching the truthiness tests
the accumulator performs on them. -/
structure DeltaToolCall where
  index : Nat
  id : String
  name : String
  arguments : String
deriving DecidableEq

/-- One decoded SSE line of the response body (lines 223-268): the
`[DONE]` sentinel, a chunk whose `choices[0].delta` holds optional text
content and tool-call deltas, or anything the loop skips (non-`data:`
lines, JSON decode errors, chunks without choices). -/
inductive StreamLine where
  | done
  | delta (content : Option String) (tool_calls : List DeltaToolCall)
  | other
deriving DecidableEq

/-- An entry of `tool_calls_buffer`: the consolidated id, function name
and argument string for one index (the constant `type: function` field is
omitted). -/
structure AccToolCall where
  id : String
  name : String
  arguments : String
deriving DecidableEq

/-- The per-delta update of one buffer entry (lines 259-265): a truthy id
or name overwrites, truthy arguments are appended. -/
def updEntry (tc : DeltaToolCall) (acc : AccToolCall) : AccToolCall :=
  { id := if tc.id ≠ "" then tc.id else acc.id,
    name := if tc.name ≠ "" then tc.name else acc.name,
    arguments := if tc.arguments ≠ "" then acc.arguments ++ tc.arguments
                 else acc.arguments }

/-- `tool_calls_buffer` as an insertion-ordered association list keyed by
`index` (a Python dict preserves first-insertion key order): an unseen
index appends a fresh entry (lines 249-257) which the update block then
fills; a seen index is updated in place. -/
def updateBuf : List (Nat × AccToolCall) → DeltaToolCall →
    List (Nat × AccToolCall)
  | [], tc => [(tc.index, updEntry tc { id := tc.id, name := "", arguments := "" })]
  | e :: rest, tc =>
      if e.1 = tc.index then (e.1, updEntry tc e.2) :: rest
      else e :: updateBuf rest tc

/-- What `generate_stream` yields: text chunks, or the consolidated
tool-calls payload. -/
inductive Yield where
  | text (s : String)
  | toolCalls (tcs : List AccToolCall)
deriving DecidableEq

def isTC : Yield → Bool
  | .toolCalls _ => true
  | _ => false

/-- `OpenAICompatibleProvider.generate_stream` line loop (lines 220-268)
over an already-decoded line stream, carrying `tool_calls_buffer`: text
deltas are yielded as they arrive and tool-call deltas accumulated; at the
`[DONE]` sentinel a non-empty buffer is yielded once as the tool-calls
payload and the loop breaks; a stream that ends without `[DONE]` yields no
tool-calls payload. -/
def generate_stream : List StreamLine → List (Nat × AccToolCall) → List Yield
  | [], _ => []
  | .done :: _, buf =>
      if buf.isEmpty then [] else [.toolCalls (buf.map (fun e => e.2))]
  | .delta c tcs :: rest, buf =>
      (match c with
       | some s => [Yield.text s]
       | none => []) ++ generate_stream rest (tcs.foldl updateBuf buf)
  | .other :: rest, buf => generate_stream rest buf

/-- The tool-call deltas the loop processes: those in chunks strictly
before the first `[DONE]` sentinel. -/
def deltasBeforeDone : List StreamLine → List DeltaToolCall
  | [] => []
  | .done :: _ => []
  | .delta _ tcs :: rest => tcs ++ deltasBeforeDone rest
  | .other :: rest => deltasBeforeDone rest

/-- The buffer as it stands when the `[DONE]` sentinel (or the raw end of
the stream) is reached. -/
def finalBuf (lines : List StreamLine) : List (Nat × AccToolCall) :=
  (deltasBeforeDone lines).foldl updateBuf []

/-- Whether the stream carries the `[DONE]` sentinel. -/
def hasDone (lines : List StreamLine) : Bool :=
  lines.any (fun l => l = StreamLine.done)

/-- Consolidated argument string held by the buffer for a given index. -/
def argsAt (buf : List (Nat × AccToolCall)) (i : Nat) : String :=
  match buf.find? (fun e => e.1 = i) with
  | some e => e.2.arguments
  | none => ""

/-- Concatenation of the argument fragments streamed for a given index, in
arrival order. -/
def argsConcat : List DeltaToolCall → Nat → String
  | [], _ => ""
  | d :: rest, i =>
      if d.index = i then d.arguments ++ argsConcat rest i
      else argsConcat rest i

end Provider

namespace Chatbot

/-- A consolidated tool call as handed to the executor: OpenAI format
`{id, function: {name, arguments}}`. -/
structure ToolCall where
  id : String
  name : String
  arguments : String
deriving DecidableEq

/-- One item yielded by `LLMService.generate_stream` (which forwards the
provider stream unchanged, llm.py lines 102-123): a text chunk, or the
single tool-calls payload `{type: tool_calls, tool_calls: [...]}`. -/
inductive Chunk where
  | text (s : String)
  | toolCalls (tcs : List ToolCall)
deriving DecidableEq

/-- A message of the per-turn LLM `messages` array (OpenAI chat format).
`assistant` carries `content` (possibly null) and a `tool_calls` list
(empty when the key is absent); `tool` carries its `tool_call_id`. -/
inductive Msg where
  | system (content : String)
  | user (content : String)
  | assistant (content : Option String) (tool_calls : List ToolCall)
  | tool (tool_call_id : String) (content : String)
deriving DecidableEq

/-- The inner `async for` of `process_chat_message` (chatbot_service.py
lines 197-228): accumulate text chunks until the first tool-calls payload,
which ends the round and carries that round's calls (none when the stream
ends with no such payload). -/
def runRound : List Chunk → String × List ToolCall
  | [] => ("", [])
  | .toolCalls tcs :: _ => ("", tcs)
  | .text s :: rest =>
      let r := runRound rest
      (s ++ r.1, r.2)

/-- `ToolExecutor.execute_tool_calls` (tool_executor.py lines 139-176):
the calls are executed sequentially in request order and each produces one
`tool` message with the matching `tool_call_id`.  `execOne` models
`json.dumps(execute_tool_call(name, parsed_arguments))` — the serialized
result content of one call. -/
def execute_tool_calls (execOne : ToolCall → String)
    (tool_calls : List ToolCall) : List Msg :=
  tool_calls.map (fun tc => Msg.tool tc.id (execOne tc))

/-- `MAX_TOOL_ROUNDS` (chatbot_service.py line 23). -/
def MAX_TOOL_ROUNDS : Nat := 5

/-- The loop-carried state of the tool-round `while` loop: the LLM
`messages` array, the accumulated `full_response`, and the round
counter. -/
structure TurnState where
  messages : List Msg
  full_response : String
  tool_round : Nat
deriving DecidableEq

/-- `response_text if response_text else None` (line 249). -/
def strOpt (s : String) : Option String :=
  if s = "" then none else some s

/-- One iteration of the tool-round loop body (lines 192-255): bump the
round counter, stream one LLM response, accumulate its text into
`full_response`; without tool calls the loop breaks; with tool calls and a
loaded executor the assistant message carrying the calls and one `tool`
message per call are appended and the loop continues (with calls but no
executor nothing is appended and the loop also continues).  The boolean
tells whether the loop continues. -/
def turnStep (llm : List Msg → List Chunk) (execOne : ToolCall → String)
    (hasExec : Bool) (st : TurnState) : TurnState × Bool :=
  let st1 : TurnState := { st with tool_round := st.tool_round + 1 }
  let r := runRound (llm st.messages)
  let st2 : TurnState := { st1 with full_response := st1.full_response ++ r.1 }
  if r.2.isEmpty then (st2, false)
  else if hasExec then
    ({ st2 with
        messages := st2.messages
          ++ [Msg.assistant (strOpt r.1) r.2]
          ++ execute_tool_calls execOne r.2 }, true)
  else (st2, true)

/-- The `while tool_round < MAX_TOOL_ROUNDS` loop, fuel-indexed.  Every
iteration increments `tool_round`, so fuel `MAX_TOOL_ROUNDS` makes the
recursion equivalent to the source loop. -/
def turnLoop (llm : List Msg → List Chunk) (execOne : ToolCall → String)
    (hasExec : Bool) : Nat → TurnState → TurnState
  | 0, st => st
  | fuel + 1, st =>
    if st.tool_round < MAX_TOOL_ROUNDS then
      let r := turnStep llm execOne hasExec st
      if r.2 then turnLoop llm execOne hasExec fuel r.1 else r.1
    else st

/-- History filter of lines 178-182: only `user` and `assistant` entries
with truthy content are forwarded to the LLM, as plain
`{role, content}`. -/
def histKeep : Msg → Option Msg
  | .user c => if c ≠ "" then some (.user c) else none
  | .assistant (some c) _ => if c ≠ "" then some (.assistant (some c) []) else none
  | _ => none

/-- Python slice `l[-n:]`. -/
def lastN {α : Type} (n : Nat) (l : List α) : List α :=
  l.drop (l.length - n)

/-- The initial `messages` array (lines 172-182): one system message, then
the last ten conversation messages filtered to user/assistant entries with
content. -/
def initMessages (sys : String) (history : List Msg) : List Msg :=
  Msg.system sys :: (lastN 10 history).filterMap histKeep

/-- The whole tool-round loop of one turn, from the freshly built
`messages` array. -/
def runTurn (llm : List Msg → List Chunk) (execOne : ToolCall → String)
    (hasExec : Bool) (sys : String) (history : List Msg) : TurnState :=
  turnLoop llm execOne hasExec MAX_TOOL_ROUNDS
    { messages := initMessages sys history, full_response := "", tool_round := 0 }

/-- Modelled from the spec: `_touch_conversation`
(services/rag/rag_service.py, imported by chatbot_service.py but not
present under src/) appends the message to the conversation's ordered
message list — "Ordered list of messages ... Append-only during a
turn". -/
def touch_conversation (conv : List Msg) (m : Msg) : List Msg :=
  conv ++ [m]

/-- `process_chat_message` effect on the conversation log (lines 122-131
and 260-268): append the user message, run the tool-round loop over the
updated history, then commit one assistant message whose content is the
accumulated `full_response`. -/
def process_chat_message (conv : List Msg) (userText : String)
    (llm : List Msg → List Chunk) (execOne : ToolCall → String)
    (hasExec : Bool) (sys : String) : List Msg :=
  let conv1 := touch_conversation conv (Msg.user userText)
  let st := runTurn llm execOne hasExec sys conv1
  touch_conversation conv1 (Msg.assistant (some st.full_response) [])

/-- Walk the message list while consuming the `tool` messages still owed
to the last assistant tool-calls message.  With calls pending, the next
message must be the `tool` message of the first pending call; with none
pending, a `tool` message is stray and rejected, and an assistant message
carrying calls starts a new pending block.  `msgsOkAux ms [] = true` thus
says: the log is made of non-`tool` messages where every assistant message
with a non-empty `tool_calls` list is immediately followed by exactly one
`tool` message per call, ids matching in call order, before any further
message. -/
def msgsOkAux : List Msg → List ToolCall → Bool
  | ms, tc :: tcs =>
      match ms with
      | .tool cid _ :: rest => cid = tc.id && msgsOkAux rest tcs
      | _ => false
  | [], [] => true
  | .tool _ _ :: _, [] => false
  | .assistant _ tcs :: rest, [] =>
      if tcs.isEmpty then msgsOkAux rest [] else msgsOkAux rest tcs
  | _ :: rest, [] => msgsOkAux rest []
termination_by ms _ => ms.length

/-- The tool-call adjacency invariant of C4, over a whole message log. -/
def msgsOk (ms : List Msg) : Bool :=
  msgsOkAux ms []

end Chatbot

namespace Examples

open ProductSync RagManager OrderLookup Chatbot

/-- Content fields of product A as stored before the sync. -/
def dataA : ProductData :=
  { name := some "Red Widget", description := some "A widget",
    long_description := none, price := some "10", currency := some "USD",
    category := some "Widgets", sku := some "RW-1",
    url := some "https://shop/rw", image_url := none, in_stock := true,
    on_sale := false, regular_price := none, attributes := [] }

/-- Product A as re-fetched after a price change. -/
def dataA2 : ProductData :=
  { dataA with price := some "11" }

/-- Content fields of product B, unmodified since the last sync. -/
def dataB : ProductData :=
  { dataA with name := some "Blue Widget", sku := some "BW-1",
               url := some "https://shop/bw" }

/-- An indexed row as Stage B leaves it. -/
def indexedRow (eid : String) (d : ProductData) : ProductRow :=
  { external_id := eid, data := d, content_hash := compute_content_hash d,
    rag_indexed := true, qdrant_point_id := some (point_id "agent1" eid) }

/-- The relational store before the incremental sync: rows A and B, both
indexed. -/
def dbAB : List ProductRow :=
  [indexedRow "A" dataA, indexedRow "B" dataB]

/-- What an incremental fetch returns after only A was modified. -/
def fetchedIncremental : List SourceProduct :=
  [{ id := "A", data := dataA2 }]

/-- A single not-yet-indexed row, for the Stage B failure scenario and the
`mark_products_indexed` counterexample. -/
def pendingRow : ProductRow :=
  { external_id := "P1", data := dataA, content_hash := compute_content_hash dataA,
    rag_indexed := false, qdrant_point_id := none }

/-- Stage B entry state with exactly one pending row. -/
def stPending : StageBState :=
  { db := [pendingRow], vs := [], indexed := 0, failed := 0, batches := 0 }

/-- A batch whose embedding or upsert deterministically raises. -/
def failAll : List ProductRow → Bool := fun _ => true

/-- A concrete tool call. -/
def tcStock : ToolCall :=
  { id := "call_1", name := "product_stock",
    arguments := "\x7bquery: Red Widget\x7d" }

/-- Serialized tool results for the examples. -/
def execStock : ToolCall → String := fun _ => "\x7bsuccess: true\x7d"

/-- An LLM that answers the two-message initial array with commentary text
followed by a tool-calls payload, and any later (longer) array with a
plain text answer. -/
def llmBothThenText : List Msg → List Chunk := fun ms =>
  if ms.length ≤ 2 then
    [Chunk.text "Let me check. ", Chunk.toolCalls [tcStock]]
  else
    [Chunk.text "It is in stock."]

/-- An LLM that requests tool calls on every round and never produces
text. -/
def llmToolsForever : List Msg → List Chunk := fun _ =>
  [Chunk.toolCalls [tcStock]]

/-- A stored order for the order-lookup examples: order 12345 belongs to
`anna@example.com`, phone `+1-555-111-2222`. -/
def order12345 : OrderLookupResult :=
  { order_id := "12345", status := "Processing",
    customer_email := some "anna@example.com",
    customer_phone := some "+1-555-111-2222",
    customer_name := some "Anna Smith", total := some "42.50",
    currency := some "USD", created_at := some "2024-01-02T03:04:05",
    shipping_address := some "1 Main St, Springfield, 12345, US",
    tracking_number := none, tracking_url := none,
    items := [{ name := "Red Widget", quantity := 2, price := some "20",
                sku := some "RW-1" }] }

/-- A lookup backend that finds exactly order 12345. -/
def lookupN12345 : String → Except String (Option OrderLookupResult) :=
  fun onum => .ok (if onum = "12345" then some order12345 else none)

/-- An email lookup backend used where the branch under test never calls
it. -/
def lookupENever : String → Except String (List OrderLookupResult) :=
  fun _ => .ok []

/-- The store page answering `search=anna@example.com, per_page=5`: two
matching orders and one hit on another billing email. -/
def wcPage : List OrderLookupResult :=
  [order12345,
   { order12345 with order_id := "12346", status := "Completed" },
   { order12345 with order_id := "99999",
                     customer_email := some "other@example.com" }]

/-- A vector store already holding the deterministic point of row P1. -/
def vsP1 : List String := [point_id "agent1" "P1"]

/-- A well-formed point-id map for `mark_products_indexed`. -/
def qmapP1 : List (String × String) := [("P1", point_id "agent1" "P1")]

end Examples


section Theorems

open ProductSync RagManager OrderLookup Provider Chatbot

/-- Helper for C9: with one pending row and a batch that always fails,
every iteration of the Stage B loop re-fetches that same row, bumps the
failure counter, leaves the table untouched and never reaches the
loop's normal exit. -/
theorem indexLoop_failAll_stuck (fuel n : Nat) :
    RagManager.indexLoop "agent1" Examples.failAll 500 fuel
        { Examples.stPending with failed := n }
      = ({ Examples.stPending with failed := n + fuel }, false) := by
  induction fuel generalizing n with
  | zero => simp [RagManager.indexLoop]
  | succ f ih =>
      have hstep :
          RagManager.indexLoop "agent1" Examples.failAll 500 (f + 1)
              { Examples.stPending with failed := n }
            = RagManager.indexLoop "agent1" Examples.failAll 500 f
                { Examples.stPending with failed := n + 1 } := by
        simp [RagManager.indexLoop, ProductSync.pendingOf,
              Examples.stPending, Examples.pendingRow, Examples.failAll]
      rw [hstep, ih]
      have : n + 1 + f = n + (f + 1) := by omega
      rw [this]

/-- C9: the claim says Stage B terminates for every finite pending set,
continuing with the NEXT batch after a failure so that failed rows are
retried only on the next run.  The code instead re-queries
`rag_indexed=False` rows from the top after a rollback, so a
deterministically failing batch is re-fetched forever: for every amount of
fuel the loop has not finished, the failure counter has grown once per
iteration for the very same single row, and the table still holds it
pending. -/
theorem c9_failing_batch_never_terminates (fuel : Nat) :
    (RagManager.indexLoop "agent1" Examples.failAll 500 fuel Examples.stPending).2
        = false ∧
    (RagManager.indexLoop "agent1" Examples.failAll 500 fuel Examples.stPending).1.failed
        = fuel ∧
    (RagManager.indexLoop "agent1" Examples.failAll 500 fuel Examples.stPending).1.db
        = [Examples.pendingRow] := by
  have h0 : { Examples.stPending with failed := 0 } = Examples.stPending := rfl
  have h := indexLoop_failAll_stuck fuel 0
  rw [h0] at h
  rw [h]
  refine ⟨rfl, ?_, rfl⟩
  show 0 + fuel = fuel
  omega

/-- C1: the claim says an incremental sync (not forced, `last_sync_at`
set, hence only products modified after it are fetched) deletes no rows.
The orchestrator indeed selects incremental fetching under exactly those
conditions, but `sync_products_to_db` deletes every pre-existing row whose
external id is absent from the fetched set, with no full-vs-incremental
flag: with rows A and B on file and an incremental fetch returning only
the modified A, row B is purged and reported deleted. -/
theorem c1_incremental_sync_deletes_unfetched_row :
    RagSync.modified_after_arg (some "2024-01-01T00:00:00") false
        = some "2024-01-01T00:00:00" ∧
    (ProductSync.sync_products_to_db Examples.dbAB Examples.fetchedIncremental).2.deleted
        = 1 ∧
    (ProductSync.sync_products_to_db Examples.dbAB Examples.fetchedIncremental).1.all
        (fun r => r.external_id ≠ "B") = true ∧
    (ProductSync.sync_products_to_db Examples.dbAB Examples.fetchedIncremental).2.updated
        = 1 := by
  refine ⟨rfl, ?_, ?_, ?_⟩ <;> decide

/-- C2 counterexample: from a state satisfying the invariant (one
unindexed row, empty vector store), calling `mark_products_indexed` with
that row's id but an empty `qdrant_point_ids` map leaves the row with
`rag_indexed=true` and a NULL `qdrant_point_id`, breaking the invariant:
the `.get` lookup silently yields NULL and nothing checks that a point
exists. -/
theorem c2_counterexample_mark_without_mapping :
    RagManager.ragInvariantB [Examples.pendingRow] [] = true ∧
    RagManager.ragInvariantB
        (ProductSync.mark_products_indexed [Examples.pendingRow] ["P1"] []) []
      = false := by
  constructor <;> decide

/-- C3 counterexample: a first round yielding both commentary text and a
tool-calls batch, followed by a plain-text second round.  The claim says
the first round's text is discarded from the committed assistant message;
the code instead accumulates it into `full_response`, so the committed
content is the concatenation of both rounds' text. -/
theorem c3_counterexample_commentary_committed :
    Chatbot.runRound (Examples.llmBothThenText
        (Chatbot.initMessages "sys" [Chatbot.Msg.user "is the Red Widget in stock?"]))
      = ("Let me check. ", [Examples.tcStock]) ∧
    Chatbot.process_chat_message [] "is the Red Widget in stock?"
        Examples.llmBothThenText Examples.execStock true "sys"
      = [Chatbot.Msg.user "is the Red Widget in stock?",
         Chatbot.Msg.assistant (some "Let me check. It is in stock.") []] := by
  constructor <;> decide

/-- C6 counterexample: an LLM that issues tool calls with no text on every
round.  The cap is reached after five rounds and the committed assistant
message carries the accumulated text, which is the empty string — no
canned fallback replaces it anywhere in `process_chat_message`. -/
theorem c6_counterexample_empty_commit_no_fallback :
    (Chatbot.runTurn Examples.llmToolsForever Examples.execStock true "sys"
        [Chatbot.Msg.user "check stock"]).tool_round = 5 ∧
    (Chatbot.process_chat_message [] "check stock" Examples.llmToolsForever
        Examples.execStock true "sys").getLast?
      = some (Chatbot.Msg.assistant (some "") []) := by
  constructor <;> decide

/-- Helper for C7: reading the buffer head. -/
theorem argsAt_cons (e : Nat × Provider.AccToolCall)
    (l : List (Nat × Provider.AccToolCall)) (i : Nat) :
    Provider.argsAt (e :: l) i
      = if e.1 = i then e.2.arguments else Provider.argsAt l i := by
  by_cases h : e.1 = i <;> simp [Provider.argsAt, List.find?_cons, h]

/-- Helper for C7: the per-index consolidated argument string after one
buffer update. -/
theorem argsAt_updateBuf (buf : List (Nat × Provider.AccToolCall))
    (tc : Provider.DeltaToolCall) (i : Nat) :
    Provider.argsAt (Provider.updateBuf buf tc) i
      = if tc.index = i then Provider.argsAt buf i ++ tc.arguments
        else Provider.argsAt buf i := by
  induction buf with
  | nil =>
      by_cases hi : tc.index = i <;>
        by_cases ha : tc.arguments = "" <;>
          simp [Provider.updateBuf, Provider.argsAt, Provider.updEntry, hi, ha]
  | cons e rest ih =>
      by_cases he : e.1 = tc.index
      · rw [show Provider.updateBuf (e :: rest) tc
              = (e.1, Provider.updEntry tc e.2) :: rest by
            simp [Provider.updateBuf, he]]
        by_cases hi : e.1 = i
        · have hti : tc.index = i := he ▸ hi
          by_cases ha : tc.arguments = "" <;>
            simp [argsAt_cons, hi, hti, Provider.updEntry, ha]
        · have hti : ¬ tc.index = i := fun h => hi (he.trans h)
          simp [argsAt_cons, hi, hti]
      · rw [show Provider.updateBuf (e :: rest) tc
              = e :: Provider.updateBuf rest tc by
            simp [Provider.updateBuf, he]]
        by_cases hi : e.1 = i
        · have hti : ¬ tc.index = i := fun h => he (hi.trans h.symm)
          simp [argsAt_cons, hi, hti]
        · simp [argsAt_cons, hi, ih]

/-- Helper for C7: folding a delta list over the buffer appends, per
index, exactly the argument fragments of that index in arrival order. -/
theorem argsAt_foldl (ds : List Provider.DeltaToolCall)
    (buf : List (Nat × Provider.AccToolCall)) (i : Nat) :
    Provider.argsAt (ds.foldl Provider.updateBuf buf) i
      = Provider.argsAt buf i ++ Provider.argsConcat ds i := by
  induction ds generalizing buf with
  | nil => simp [Provider.argsConcat]
  | cons d rest ih =>
      simp only [List.foldl_cons, ih, argsAt_updateBuf, Provider.argsConcat]
      by_cases hd : d.index = i
      · simp [hd, String.append_assoc]
      · simp [hd]

/-- Helper for C7: the tool-calls yields of the stream, starting from an
arbitrary buffer, are exactly one payload carrying the final buffer when a
`[DONE]` sentinel is reached with a non-empty buffer, and none
otherwise. -/
theorem generate_stream_filter_char (lines : List Provider.StreamLine)
    (buf : List (Nat × Provider.AccToolCall)) :
    (Provider.generate_stream lines buf).filter Provider.isTC
      = if Provider.hasDone lines
            && !((Provider.deltasBeforeDone lines).foldl Provider.updateBuf buf).isEmpty
        then [Provider.Yield.toolCalls
                (((Provider.deltasBeforeDone lines).foldl Provider.updateBuf buf).map
                  (fun e => e.2))]
        else [] := by
  induction lines generalizing buf with
  | nil => simp [Provider.generate_stream, Provider.hasDone]
  | cons l rest ih =>
      cases l with
      | done =>
          by_cases hb : buf.isEmpty <;>
            simp [Provider.generate_stream, Provider.hasDone,
                  Provider.deltasBeforeDone, Provider.isTC, hb]
      | delta c tcs =>
          have hh : Provider.hasDone (Provider.StreamLine.delta c tcs :: rest)
              = Provider.hasDone rest := by simp [Provider.hasDone]
          have hdel : Provider.deltasBeforeDone
                (Provider.StreamLine.delta c tcs :: rest)
              = tcs ++ Provider.deltasBeforeDone rest := rfl
          cases c with
          | none =>
              rw [show Provider.generate_stream
                    (Provider.StreamLine.delta none tcs :: rest) buf
                  = Provider.generate_stream rest
                      (tcs.foldl Provider.updateBuf buf) from rfl]
              rw [ih]
              simp only [hh, hdel, List.foldl_append]
          | some str =>
              rw [show Provider.generate_stream
                    (Provider.StreamLine.delta (some str) tcs :: rest) buf
                  = Provider.Yield.text str
                      :: Provider.generate_stream rest
                          (tcs.foldl Provider.updateBuf buf) from rfl]
              rw [List.filter_cons_of_neg (by simp [Provider.isTC])]
              rw [ih]
              simp only [hh, hdel, List.foldl_append]
      | other =>
          simp [Provider.generate_stream, Provider.hasDone,
                Provider.deltasBeforeDone, ih]

/-- Helper for C7: every yield of the stream is a text chunk except for
the tool-calls payloads singled out by the filter. -/
theorem generate_stream_shape (lines : List Provider.StreamLine)
    (buf : List (Nat × Provider.AccToolCall)) :
    ∃ ts : List String,
      Provider.generate_stream lines buf
        = ts.map Provider.Yield.text
            ++ (Provider.generate_stream lines buf).filter Provider.isTC := by
  induction lines generalizing buf with
  | nil => exact ⟨[], by simp [Provider.generate_stream]⟩
  | cons l rest ih =>
      cases l with
      | done =>
          by_cases hb : buf.isEmpty <;>
            exact ⟨[], by simp [Provider.generate_stream, Provider.isTC, hb]⟩
      | delta c tcs =>
          obtain ⟨ts, hts⟩ := ih (tcs.foldl Provider.updateBuf buf)
          cases c with
          | none =>
              exact ⟨ts, by simpa [Provider.generate_stream, Provider.isTC] using hts⟩
          | some str =>
              refine ⟨str :: ts, ?_⟩
              show Provider.Yield.text str
                    :: Provider.generate_stream rest (tcs.foldl Provider.updateBuf buf)
                  = (str :: ts).map Provider.Yield.text
                      ++ (Provider.Yield.text str
                            :: Provider.generate_stream rest
                                (tcs.foldl Provider.updateBuf buf)).filter
                          Provider.isTC
              rw [List.filter_cons_of_neg (by simp [Provider.isTC])]
              simp only [List.map_cons, List.cons_append]
              exact congrArg _ hts
      | other =>
          obtain ⟨ts, hts⟩ := ih buf
          exact ⟨ts, by simpa [Provider.generate_stream] using hts⟩

/-- C7: the streamed LLM driver accumulates tool-call deltas by their
`index` field across chunks, concatenating the argument fragments of each
index in arrival order, and yields the consolidated list at most once —
precisely when the stream signals `[DONE]` with a non-empty buffer — as
the last item of the round; every earlier yield is a text chunk. -/
theorem c7_stream_toolcalls_once_at_end (lines : List Provider.StreamLine) :
    ((Provider.generate_stream lines []).filter Provider.isTC
      = if Provider.hasDone lines && !(Provider.finalBuf lines).isEmpty then
          [Provider.Yield.toolCalls ((Provider.finalBuf lines).map (fun e => e.2))]
        else []) ∧
    ((Provider.generate_stream lines []).dropLast.filter Provider.isTC = []) ∧
    (∀ i : Nat, Provider.argsAt (Provider.finalBuf lines) i
      = Provider.argsConcat (Provider.deltasBeforeDone lines) i) := by
  refine ⟨generate_stream_filter_char lines [], ?_, ?_⟩
  · obtain ⟨ts, hts⟩ := generate_stream_shape lines []
    rw [generate_stream_filter_char lines []] at hts
    by_cases hd : (Provider.hasDone lines
        && !((Provider.deltasBeforeDone lines).foldl Provider.updateBuf []).isEmpty)
        = true
    · rw [hts, hd]
      simp only [if_true]
      rw [List.dropLast_concat]
      simp [List.filter_map, Provider.isTC, Function.comp]
    · rw [hts, if_neg hd]
      simp only [List.append_nil]
      have hsub : (ts.map Provider.Yield.text).dropLast.Sublist
          (ts.map Provider.Yield.text) := List.dropLast_sublist _
      rw [List.filter_eq_nil_iff]
      intro a ha
      have := hsub.mem ha
      obtain ⟨t, _, rfl⟩ := List.mem_map.mp this
      simp [Provider.isTC]
  · intro i
    simpa [Provider.argsAt] using argsAt_foldl (Provider.deltasBeforeDone lines) [] i

/-- Helper for C4: the executor's tool messages answer a pending call list
exactly, in order, and the walk resumes cleanly afterwards. -/
theorem msgsOkAux_toolMsgs (execOne : Chatbot.ToolCall → String) :
    ∀ (tcs : List Chatbot.ToolCall) (r : List Chatbot.Msg),
      Chatbot.msgsOkAux (Chatbot.execute_tool_calls execOne tcs ++ r) tcs
        = Chatbot.msgsOkAux r [] := by
  intro tcs
  induction tcs with
  | nil => intro r; simp [Chatbot.execute_tool_calls]
  | cons tc rest ih =>
      intro r
      simp [Chatbot.execute_tool_calls, Chatbot.msgsOkAux] at ih ⊢
      exact ih r

/-- Helper for C4: appending an assistant message carrying calls together
with its exact tool answers preserves the walk invariant. -/
theorem msgsOkAux_append_block (execOne : Chatbot.ToolCall → String)
    (c : Option String) (tcs : List Chatbot.ToolCall) :
    ∀ (ms : List Chatbot.Msg) (pending : List Chatbot.ToolCall),
      Chatbot.msgsOkAux ms pending = true →
      Chatbot.msgsOkAux
          (ms ++ Chatbot.Msg.assistant c tcs :: Chatbot.execute_tool_calls execOne tcs)
          pending = true := by
  intro ms
  induction ms with
  | nil =>
      intro pending h
      cases pending with
      | cons tc tcs' => simp [Chatbot.msgsOkAux] at h
      | nil =>
          by_cases htcs : tcs.isEmpty
          · have : tcs = [] := List.isEmpty_iff.mp htcs
            subst this
            simp [Chatbot.msgsOkAux, Chatbot.execute_tool_calls]
          · simp only [List.nil_append, Chatbot.msgsOkAux, htcs, if_false]
            have := msgsOkAux_toolMsgs execOne tcs []
            simpa [Chatbot.msgsOkAux] using this
  | cons m rest ih =>
      intro pending h
      cases pending with
      | cons tc tcs' =>
          cases m with
          | tool cid cc =>
              simp only [Chatbot.msgsOkAux, Bool.and_eq_true, decide_eq_true_eq] at h
              simp only [List.cons_append, Chatbot.msgsOkAux, Bool.and_eq_true,
                         decide_eq_true_eq]
              exact ⟨h.1, ih tcs' h.2⟩
          | system cc => simp [Chatbot.msgsOkAux] at h
          | user cc => simp [Chatbot.msgsOkAux] at h
          | assistant cc tl => simp [Chatbot.msgsOkAux] at h
      | nil =>
          cases m with
          | tool cid cc => simp [Chatbot.msgsOkAux] at h
          | system cc =>
              simp only [Chatbot.msgsOkAux] at h
              simpa [Chatbot.msgsOkAux] using ih [] h
          | user cc =>
              simp only [Chatbot.msgsOkAux] at h
              simpa [Chatbot.msgsOkAux] using ih [] h
          | assistant cc tl =>
              by_cases htl : tl.isEmpty
              · simp only [Chatbot.msgsOkAux, htl, if_true] at h
                simpa [Chatbot.msgsOkAux, htl] using ih [] h
              · simp only [Chatbot.msgsOkAux, htl, if_false] at h
                simpa [Chatbot.msgsOkAux, htl] using ih tl h

/-- Helper for C4: the filtered conversation history contains only plain
user and assistant messages, which walk cleanly. -/
theorem msgsOkAux_histKeep :
    ∀ l : List Chatbot.Msg,
      Chatbot.msgsOkAux (l.filterMap Chatbot.histKeep) [] = true := by
  intro l
  induction l with
  | nil => simp [Chatbot.msgsOkAux]
  | cons m rest ih =>
      cases m with
      | system c => simpa [Chatbot.histKeep] using ih
      | tool a b => simpa [Chatbot.histKeep] using ih
      | user c =>
          by_cases hc : c = ""
          · simpa [Chatbot.histKeep, hc] using ih
          · simpa [Chatbot.histKeep, hc, Chatbot.msgsOkAux] using ih
      | assistant c tl =>
          cases c with
          | none => simpa [Chatbot.histKeep] using ih
          | some cc =>
              by_cases hc : cc = ""
              · simpa [Chatbot.histKeep, hc] using ih
              · simpa [Chatbot.histKeep, hc, Chatbot.msgsOkAux] using ih

/-- Helper for C4: the loop preserves the walk invariant on `messages`. -/
theorem turnLoop_msgsOk (llm : List Chatbot.Msg → List Chatbot.Chunk)
    (execOne : Chatbot.ToolCall → String) (hasExec : Bool) :
    ∀ (fuel : Nat) (st : Chatbot.TurnState),
      Chatbot.msgsOk st.messages = true →
      Chatbot.msgsOk (Chatbot.turnLoop llm execOne hasExec fuel st).messages
        = true := by
  intro fuel
  induction fuel with
  | zero => intro st h; simpa [Chatbot.turnLoop] using h
  | succ f ih =>
      intro st h
      rw [Chatbot.turnLoop]
      by_cases hr : st.tool_round < Chatbot.MAX_TOOL_ROUNDS
      · rw [if_pos hr]
        by_cases he : (Chatbot.runRound (llm st.messages)).2.isEmpty = true
        · have hstep : Chatbot.turnStep llm execOne hasExec st
              = ({ st with
                    tool_round := st.tool_round + 1,
                    full_response :=
                      st.full_response ++ (Chatbot.runRound (llm st.messages)).1 },
                 false) := by
            simp [Chatbot.turnStep, he]
          simp only [hstep]
          simpa using h
        · by_cases hx : hasExec = true
          case neg =>
            have hstep : Chatbot.turnStep llm execOne hasExec st
                = ({ st with
                      tool_round := st.tool_round + 1,
                      full_response :=
                        st.full_response ++ (Chatbot.runRound (llm st.messages)).1 },
                   true) := by
              simp [Chatbot.turnStep, he, hx]
            simp only [hstep]
            exact ih _ h
          case pos =>
            subst hx
            have hstep : Chatbot.turnStep llm execOne true st
                = ({ st with
                      messages := st.messages
                        ++ [Chatbot.Msg.assistant
                              (Chatbot.strOpt (Chatbot.runRound (llm st.messages)).1)
                              (Chatbot.runRound (llm st.messages)).2]
                        ++ Chatbot.execute_tool_calls execOne
                            (Chatbot.runRound (llm st.messages)).2,
                      tool_round := st.tool_round + 1,
                      full_response :=
                        st.full_response ++ (Chatbot.runRound (llm st.messages)).1 },
                   true) := by
              simp [Chatbot.turnStep, he]
            simp only [hstep]
            simp only [if_true]
            refine ih _ ?_
            show Chatbot.msgsOk
                (st.messages
                  ++ [Chatbot.Msg.assistant
                        (Chatbot.strOpt (Chatbot.runRound (llm st.messages)).1)
                        (Chatbot.runRound (llm st.messages)).2]
                  ++ Chatbot.execute_tool_calls execOne
                      (Chatbot.runRound (llm st.messages)).2)
              = true
            rw [List.append_assoc, List.singleton_append]
            exact msgsOkAux_append_block execOne _ _ st.messages [] h
      · rw [if_neg hr]
        exact h

/-- C4: in every turn, the `messages` array handed to the LLM satisfies
the adjacency invariant: each assistant message carrying a non-empty
`tool_calls` list is immediately followed, with no intervening messages,
by exactly one `tool` message per requested call, the i-th carrying the
tool_call_id of the i-th call in the order the LLM requested them, before
any further message (in particular before the next assistant message). -/
theorem c4_tool_messages_follow_assistant_in_order
    (llm : List Chatbot.Msg → List Chatbot.Chunk)
    (execOne : Chatbot.ToolCall → String) (hasExec : Bool)
    (sys : String) (history : List Chatbot.Msg) :
    Chatbot.msgsOk
        (Chatbot.runTurn llm execOne hasExec sys history).messages = true := by
  apply turnLoop_msgsOk
  show Chatbot.msgsOkAux (Chatbot.initMessages sys history) [] = true
  simp only [Chatbot.initMessages, Chatbot.msgsOkAux]
  exact msgsOkAux_histKeep (Chatbot.lastN 10 history)

/-- Helper for C3/C6: every branch of the loop body bumps the round
counter by one — `tool_round` counts LLM invocations. -/
theorem turnStep_round (llm : List Chatbot.Msg → List Chatbot.Chunk)
    (execOne : Chatbot.ToolCall → String) (hasExec : Bool)
    (st : Chatbot.TurnState) :
    (Chatbot.turnStep llm execOne hasExec st).1.tool_round
      = st.tool_round + 1 := by
  by_cases he : (Chatbot.runRound (llm st.messages)).2.isEmpty = true
  · simp [Chatbot.turnStep, he]
  · by_cases hx : hasExec = true <;> simp [Chatbot.turnStep, he, hx]

/-- Helper for C3/C6: the accumulated response only ever grows. -/
theorem turnStep_full_response (llm : List Chatbot.Msg → List Chatbot.Chunk)
    (execOne : Chatbot.ToolCall → String) (hasExec : Bool)
    (st : Chatbot.TurnState) :
    (Chatbot.turnStep llm execOne hasExec st).1.full_response
      = st.full_response ++ (Chatbot.runRound (llm st.messages)).1 := by
  by_cases he : (Chatbot.runRound (llm st.messages)).2.isEmpty = true
  · simp [Chatbot.turnStep, he]
  · by_cases hx : hasExec = true <;> simp [Chatbot.turnStep, he, hx]

/-- Helper for C3/C6: whatever the loop does, the final `full_response`
extends the entry state's accumulated text. -/
theorem turnLoop_full_response_extends
    (llm : List Chatbot.Msg → List Chatbot.Chunk)
    (execOne : Chatbot.ToolCall → String) (hasExec : Bool) :
    ∀ (fuel : Nat) (st : Chatbot.TurnState),
      ∃ suffix,
        (Chatbot.turnLoop llm execOne hasExec fuel st).full_response
          = st.full_response ++ suffix := by
  intro fuel
  induction fuel with
  | zero =>
      intro st
      exact ⟨"", by simp [Chatbot.turnLoop, String.append_empty]⟩
  | succ f ih =>
      intro st
      rw [Chatbot.turnLoop]
      by_cases hr : st.tool_round < Chatbot.MAX_TOOL_ROUNDS
      · rw [if_pos hr]
        by_cases hc : (Chatbot.turnStep llm execOne hasExec st).2 = true
        · rw [if_pos hc]
          obtain ⟨suffix, hs⟩ := ih (Chatbot.turnStep llm execOne hasExec st).1
          refine ⟨(Chatbot.runRound (llm st.messages)).1 ++ suffix, ?_⟩
          rw [hs, turnStep_full_response, String.append_assoc]
        · rw [if_neg hc]
          exact ⟨(Chatbot.runRound (llm st.messages)).1,
                 turnStep_full_response llm execOne hasExec st⟩
      · rw [if_neg hr]
        exact ⟨"", (String.append_empty _).symm⟩

/-- Helper for C6: the round counter never exceeds the cap. -/
theorem turnLoop_round_le (llm : List Chatbot.Msg → List Chatbot.Chunk)
    (execOne : Chatbot.ToolCall → String) (hasExec : Bool) :
    ∀ (fuel : Nat) (st : Chatbot.TurnState),
      st.tool_round ≤ Chatbot.MAX_TOOL_ROUNDS →
      (Chatbot.turnLoop llm execOne hasExec fuel st).tool_round
        ≤ Chatbot.MAX_TOOL_ROUNDS := by
  intro fuel
  induction fuel with
  | zero => intro st h; simpa [Chatbot.turnLoop] using h
  | succ f ih =>
      intro st h
      rw [Chatbot.turnLoop]
      by_cases hr : st.tool_round < Chatbot.MAX_TOOL_ROUNDS
      · rw [if_pos hr]
        have hround : (Chatbot.turnStep llm execOne hasExec st).1.tool_round
            ≤ Chatbot.MAX_TOOL_ROUNDS := by
          rw [turnStep_round]; omega
        by_cases hc : (Chatbot.turnStep llm execOne hasExec st).2 = true
        · rw [if_pos hc]
          exact ih _ hround
        · rw [if_neg hc]
          exact hround
      · rw [if_neg hr]
        exact h

/-- Helper for C6: when every round keeps issuing tool calls, every step
continues the loop, so the counter reaches the cap exactly. -/
theorem turnLoop_round_cap (llm : List Chatbot.Msg → List Chatbot.Chunk)
    (execOne : Chatbot.ToolCall → String) (hasExec : Bool)
    (hall : ∀ ms, ¬(Chatbot.runRound (llm ms)).2.isEmpty = true) :
    ∀ (fuel : Nat) (st : Chatbot.TurnState),
      st.tool_round ≤ Chatbot.MAX_TOOL_ROUNDS →
      Chatbot.MAX_TOOL_ROUNDS ≤ st.tool_round + fuel →
      (Chatbot.turnLoop llm execOne hasExec fuel st).tool_round
        = Chatbot.MAX_TOOL_ROUNDS := by
  intro fuel
  induction fuel with
  | zero =>
      intro st h1 h2
      have : st.tool_round = Chatbot.MAX_TOOL_ROUNDS := by omega
      simpa [Chatbot.turnLoop] using this
  | succ f ih =>
      intro st h1 h2
      rw [Chatbot.turnLoop]
      by_cases hr : st.tool_round < Chatbot.MAX_TOOL_ROUNDS
      · rw [if_pos hr]
        have hc : (Chatbot.turnStep llm execOne hasExec st).2 = true := by
          by_cases hx : hasExec = true <;>
            simp [Chatbot.turnStep, hall st.messages, hx]
        rw [if_pos hc]
        refine ih _ ?_ ?_ <;> rw [turnStep_round] <;> omega
      · rw [if_neg hr]
        omega

/-- C3 amended: a round that yields both text and tool calls is treated
as a tool-call round, but its text is NOT discarded: the text is appended
to the turn's accumulated `full_response` (so it reaches the committed
assistant message, whose content is exactly the final `full_response`),
and it rides along as the `content` of the intermediate assistant message
carrying the `tool_calls`. -/
theorem c3_tool_round_text_retained
    (llm : List Chatbot.Msg → List Chatbot.Chunk)
    (execOne : Chatbot.ToolCall → String)
    (st : Chatbot.TurnState) (fuel : Nat)
    (hr : st.tool_round < Chatbot.MAX_TOOL_ROUNDS)
    (hcalls : ¬(Chatbot.runRound (llm st.messages)).2.isEmpty = true) :
    (Chatbot.turnStep llm execOne true st).1.full_response
      = st.full_response ++ (Chatbot.runRound (llm st.messages)).1 ∧
    (Chatbot.turnStep llm execOne true st).1.messages
      = st.messages
        ++ [Chatbot.Msg.assistant
              (Chatbot.strOpt (Chatbot.runRound (llm st.messages)).1)
              (Chatbot.runRound (llm st.messages)).2]
        ++ Chatbot.execute_tool_calls execOne
            (Chatbot.runRound (llm st.messages)).2 ∧
    ∃ suffix,
      (Chatbot.turnLoop llm execOne true (fuel + 1) st).full_response
        = st.full_response ++ (Chatbot.runRound (llm st.messages)).1 ++ suffix := by
  refine ⟨turnStep_full_response llm execOne true st, ?_, ?_⟩
  · simp [Chatbot.turnStep, hcalls]
  · rw [Chatbot.turnLoop, if_pos hr]
    have hc : (Chatbot.turnStep llm execOne true st).2 = true := by
      simp [Chatbot.turnStep, hcalls]
    rw [if_pos hc]
    obtain ⟨suffix, hs⟩ :=
      turnLoop_full_response_extends llm execOne true fuel
        (Chatbot.turnStep llm execOne true st).1
    exact ⟨suffix, by rw [hs, turnStep_full_response]⟩

/-- Witness for C3 amended: the concrete two-round conversation of the
counterexample, where the first round yields text and tool calls. -/
theorem c3_tool_round_text_retained_witness :
    (Chatbot.turnStep Examples.llmBothThenText Examples.execStock true
        { messages := Chatbot.initMessages "sys"
            [Chatbot.Msg.user "is the Red Widget in stock?"],
          full_response := "", tool_round := 0 }).1.full_response
      = "" ++ (Chatbot.runRound (Examples.llmBothThenText
          (Chatbot.initMessages "sys"
            [Chatbot.Msg.user "is the Red Widget in stock?"]))).1 ∧
    (Chatbot.turnStep Examples.llmBothThenText Examples.execStock true
        { messages := Chatbot.initMessages "sys"
            [Chatbot.Msg.user "is the Red Widget in stock?"],
          full_response := "", tool_round := 0 }).1.messages
      = Chatbot.initMessages "sys" [Chatbot.Msg.user "is the Red Widget in stock?"]
        ++ [Chatbot.Msg.assistant
              (Chatbot.strOpt (Chatbot.runRound (Examples.llmBothThenText
                (Chatbot.initMessages "sys"
                  [Chatbot.Msg.user "is the Red Widget in stock?"]))).1)
              (Chatbot.runRound (Examples.llmBothThenText
                (Chatbot.initMessages "sys"
                  [Chatbot.Msg.user "is the Red Widget in stock?"]))).2]
        ++ Chatbot.execute_tool_calls Examples.execStock
            (Chatbot.runRound (Examples.llmBothThenText
              (Chatbot.initMessages "sys"
                [Chatbot.Msg.user "is the Red Widget in stock?"]))).2 ∧
    ∃ suffix,
      (Chatbot.turnLoop Examples.llmBothThenText Examples.execStock true 5
          { messages := Chatbot.initMessages "sys"
              [Chatbot.Msg.user "is the Red Widget in stock?"],
            full_response := "", tool_round := 0 }).full_response
        = "" ++ (Chatbot.runRound (Examples.llmBothThenText
            (Chatbot.initMessages "sys"
              [Chatbot.Msg.user "is the Red Widget in stock?"]))).1 ++ suffix :=
  c3_tool_round_text_retained Examples.llmBothThenText Examples.execStock
    { messages := Chatbot.initMessages "sys"
        [Chatbot.Msg.user "is the Red Widget in stock?"],
      full_response := "", tool_round := 0 } 4
    (by decide) (by decide)

/-- C6 amended: the tool-round loop performs at most
`MAX_TOOL_ROUNDS = 5` LLM invocations per turn; when the LLM keeps
issuing tool calls the counter reaches the cap exactly and the loop
terminates; the committed assistant message is the accumulated text
content as it stands — possibly the empty string, there is no canned
fallback. -/
theorem c6_round_cap_and_commit
    (llm : List Chatbot.Msg → List Chatbot.Chunk)
    (execOne : Chatbot.ToolCall → String) (hasExec : Bool)
    (sys userText : String) (conv history : List Chatbot.Msg) :
    (Chatbot.runTurn llm execOne hasExec sys history).tool_round
      ≤ Chatbot.MAX_TOOL_ROUNDS ∧
    ((∀ ms, ¬(Chatbot.runRound (llm ms)).2.isEmpty = true) →
      (Chatbot.runTurn llm execOne hasExec sys history).tool_round
        = Chatbot.MAX_TOOL_ROUNDS) ∧
    (Chatbot.process_chat_message conv userText llm execOne hasExec sys).getLast?
      = some (Chatbot.Msg.assistant
          (some (Chatbot.runTurn llm execOne hasExec sys
            (Chatbot.touch_conversation conv (Chatbot.Msg.user userText))).full_response)
          []) := by
  refine ⟨?_, ?_, ?_⟩
  · exact turnLoop_round_le llm execOne hasExec Chatbot.MAX_TOOL_ROUNDS _
      (by simp)
  · intro hall
    exact turnLoop_round_cap llm execOne hasExec hall Chatbot.MAX_TOOL_ROUNDS _
      (by simp) (by simp)
  · simp [Chatbot.process_chat_message, Chatbot.touch_conversation,
          Chatbot.runTurn, List.getLast?_concat]

/-- Witness for C6 amended: the always-tool-calls LLM of the
counterexample reaches the cap of five rounds and commits the (empty)
accumulated text. -/
theorem c6_round_cap_and_commit_witness :
    (Chatbot.runTurn Examples.llmToolsForever Examples.execStock true "sys"
        [Chatbot.Msg.user "check stock"]).tool_round
      ≤ Chatbot.MAX_TOOL_ROUNDS ∧
    (Chatbot.runTurn Examples.llmToolsForever Examples.execStock true "sys"
        [Chatbot.Msg.user "check stock"]).tool_round
      = Chatbot.MAX_TOOL_ROUNDS ∧
    (Chatbot.process_chat_message [] "check stock" Examples.llmToolsForever
        Examples.execStock true "sys").getLast?
      = some (Chatbot.Msg.assistant
          (some (Chatbot.runTurn Examples.llmToolsForever Examples.execStock true
            "sys" (Chatbot.touch_conversation []
              (Chatbot.Msg.user "check stock"))).full_response)
          []) :=
  have h := c6_round_cap_and_commit Examples.llmToolsForever Examples.execStock
    true "sys" "check stock" [] [Chatbot.Msg.user "check stock"]
  ⟨h.1, h.2.1 (fun ms => by
    simp [Examples.llmToolsForever, Chatbot.runRound]), h.2.2⟩

/-- Helper for C2: a row that survives the upsert pass with
`rag_indexed=true` was already present unchanged — inserts and updates
both reset the flag. -/
theorem syncUpserts_indexed_mem :
    ∀ (l : List ProductSync.SourceProduct) (db : List ProductSync.ProductRow)
      (s : ProductSync.SyncStats) (r : ProductSync.ProductRow),
      r ∈ (ProductSync.syncUpserts db s l).1 → r.rag_indexed = true → r ∈ db := by
  intro l
  induction l with
  | nil =>
      intro db s r hr _
      simpa [ProductSync.syncUpserts] using hr
  | cons p rest ih =>
      intro db s r hr hri
      rw [ProductSync.syncUpserts] at hr
      cases hfind : db.find? (fun q => q.external_id = p.id) with
      | none =>
          simp only [hfind] at hr
          have := ih _ _ _ hr hri
          rcases List.mem_append.mp this with h | h
          · exact h
          · exfalso
            have : r = ProductSync.newRow p := by simpa using h
            rw [this] at hri
            simp [ProductSync.newRow] at hri
      | some q =>
          simp only [hfind] at hr
          by_cases hh : q.content_hash = ProductSync.compute_content_hash p.data
          · rw [if_pos hh] at hr
            exact ih _ _ _ hr hri
          · rw [if_neg hh] at hr
            have := ih _ _ _ hr hri
            obtain ⟨q', hq', hfq⟩ := List.mem_map.mp this
            by_cases hqe : q'.external_id = p.id
            · exfalso
              rw [if_pos hqe] at hfq
              rw [← hfq] at hri
              simp [ProductSync.updateRow] at hri
            · rw [if_neg hqe] at hfq
              rw [← hfq]
              exact hq'

/-- Helper for C2: the row invariant only ever gets easier as the vector
store grows. -/
theorem rowOk_mono (vs ext : List String) (r : ProductSync.ProductRow)
    (h : RagManager.rowOk vs r = true) :
    RagManager.rowOk (vs ++ ext) r = true := by
  cases hri : r.rag_indexed with
  | false => simp [RagManager.rowOk, hri]
  | true =>
      cases hpid : r.qdrant_point_id with
      | none => simp [RagManager.rowOk, hri, hpid] at h
      | some pid =>
          simp only [RagManager.rowOk, hri, hpid, Bool.not_true,
                     Bool.false_or] at h ⊢
          exact List.elem_eq_true_of_mem
            (List.mem_append_left ext (List.mem_of_elem_eq_true h))

/-- Helper for C2: `markFirst` keeps the invariant when the marked id is
mapped to a point present in the store. -/
theorem markFirst_invariant (vs : List String) (pid : String)
    (qmap : List (String × String)) (q : String)
    (hq : ProductSync.lookupAssoc qmap pid = some q) (hqv : q ∈ vs) :
    ∀ db, RagManager.ragInvariantB db vs = true →
      RagManager.ragInvariantB (ProductSync.markFirst pid qmap db) vs = true := by
  intro db
  induction db with
  | nil => intro h; simpa [ProductSync.markFirst] using h
  | cons r rs ih =>
      intro h
      rw [RagManager.ragInvariantB, List.all_cons, Bool.and_eq_true] at h
      by_cases hrp : r.external_id = pid
      · have hmf : ProductSync.markFirst pid qmap (r :: rs)
            = ({ r with
                 rag_indexed := true,
                 qdrant_point_id := ProductSync.lookupAssoc qmap pid } :: rs) := by
          simp [ProductSync.markFirst, hrp]
        rw [hmf, RagManager.ragInvariantB, List.all_cons, Bool.and_eq_true]
        constructor
        · simp only [RagManager.rowOk, hq, Bool.not_true, Bool.false_or]
          exact List.elem_eq_true_of_mem hqv
        · exact h.2
      · have hmf : ProductSync.markFirst pid qmap (r :: rs)
            = r :: ProductSync.markFirst pid qmap rs := by
          simp [ProductSync.markFirst, hrp]
        rw [hmf, RagManager.ragInvariantB, List.all_cons, Bool.and_eq_true]
        refine ⟨h.1, ?_⟩
        have := ih (by rw [RagManager.ragInvariantB]; exact h.2)
        rw [RagManager.ragInvariantB] at this
        exact this

/-- C2 amended: the invariant — every row with `rag_indexed=true` has a
non-null `qdrant_point_id` naming a point present in the vector store —
is preserved unconditionally by the Stage A upsert (which never sets the
flag) and by a successful Stage B batch (which upserts the batch's
deterministic points before marking); `mark_products_indexed` preserves it
only under the proviso the claim lacks: every product id passed must be
mapped by `qdrant_point_ids` to a point that exists in the store, since
the code installs the bare `.get` lookup (NULL when unmapped) and never
checks the store. -/
theorem c2_pipeline_preserves_rag_invariant
    (db : List ProductSync.ProductRow) (vs : List String)
    (hinv : RagManager.ragInvariantB db vs = true) :
    (∀ ps : List ProductSync.SourceProduct,
        RagManager.ragInvariantB (ProductSync.sync_products_to_db db ps).1 vs
          = true) ∧
    (∀ (agent_id : String) (batch : List ProductSync.ProductRow),
        RagManager.ragInvariantB (RagManager.markBatch agent_id db batch)
          (vs ++ RagManager.batchPointIds agent_id batch) = true) ∧
    (∀ (ids : List String) (qmap : List (String × String)),
        (∀ pid ∈ ids, ∃ q, ProductSync.lookupAssoc qmap pid = some q ∧ q ∈ vs) →
        RagManager.ragInvariantB (ProductSync.mark_products_indexed db ids qmap) vs
          = true) := by
  rw [RagManager.ragInvariantB, List.all_eq_true] at hinv
  refine ⟨?_, ?_, ?_⟩
  · intro ps
    rw [RagManager.ragInvariantB, List.all_eq_true]
    intro r hr
    cases hri : r.rag_indexed with
    | false => simp [RagManager.rowOk, hri]
    | true =>
        have hr' : r ∈ (ProductSync.syncUpserts db
            (ProductSync.initStats ps.length) (ProductSync.dedupeKeepLast ps)).1 := by
          have := hr
          simp only [ProductSync.sync_products_to_db] at this
          exact (List.mem_filter.mp this).1
        exact hinv r (syncUpserts_indexed_mem _ _ _ _ hr' hri)
  · intro agent_id batch
    rw [RagManager.ragInvariantB, List.all_eq_true]
    intro r' hr'
    obtain ⟨r, hr, hfr⟩ := List.mem_map.mp hr'
    by_cases hm : batch.any (fun b => b.external_id = r.external_id) = true
    · rw [if_pos hm] at hfr
      subst hfr
      simp only [RagManager.rowOk, Bool.not_true, Bool.false_or]
      obtain ⟨b, hb, hbe⟩ := List.any_eq_true.mp hm
      refine List.elem_eq_true_of_mem (List.mem_append_right vs ?_)
      have hbe' : b.external_id = r.external_id := by simpa using hbe
      rw [show RagManager.point_id agent_id r.external_id
            = RagManager.point_id agent_id b.external_id by rw [hbe']]
      exact List.mem_map_of_mem (fun p => RagManager.point_id agent_id p.external_id) hb
    · rw [if_neg hm] at hfr
      subst hfr
      exact rowOk_mono vs _ r (hinv r hr)
  · intro ids qmap hids
    have main : ∀ (l : List String) (d : List ProductSync.ProductRow),
        (∀ pid ∈ l, ∃ q, ProductSync.lookupAssoc qmap pid = some q ∧ q ∈ vs) →
        RagManager.ragInvariantB d vs = true →
        RagManager.ragInvariantB (ProductSync.mark_products_indexed d l qmap) vs
          = true := by
      intro l
      induction l with
      | nil =>
          intro d _ hd
          simpa [ProductSync.mark_products_indexed] using hd
      | cons pid rest ihl =>
          intro d hl hd
          obtain ⟨q, hq, hqv⟩ := hl pid (by simp)
          have hstep := markFirst_invariant vs pid qmap q hq hqv d hd
          have : ProductSync.mark_products_indexed d (pid :: rest) qmap
              = ProductSync.mark_products_indexed
                  (ProductSync.markFirst pid qmap d) rest qmap := rfl
          rw [this]
          exact ihl _ (fun i hi => hl i (by simp [hi])) hstep
    exact main ids db hids (by rw [RagManager.ragInvariantB, List.all_eq_true]; exact hinv)

/-- Witness for C2 amended: the single-pending-row store with the P1
point already present, synced, batch-marked and marked through a
well-formed map. -/
theorem c2_pipeline_preserves_rag_invariant_witness :
    RagManager.ragInvariantB
        (ProductSync.sync_products_to_db [Examples.pendingRow]
          Examples.fetchedIncremental).1 Examples.vsP1 = true ∧
    RagManager.ragInvariantB
        (RagManager.markBatch "agent1" [Examples.pendingRow] [Examples.pendingRow])
        (Examples.vsP1 ++ RagManager.batchPointIds "agent1" [Examples.pendingRow])
      = true ∧
    RagManager.ragInvariantB
        (ProductSync.mark_products_indexed [Examples.pendingRow] ["P1"]
          Examples.qmapP1) Examples.vsP1 = true := by
  have h := c2_pipeline_preserves_rag_invariant [Examples.pendingRow]
    Examples.vsP1 (by decide)
  exact ⟨h.1 Examples.fetchedIncremental, h.2.1 "agent1" [Examples.pendingRow],
         h.2.2 ["P1"] Examples.qmapP1 (by decide)⟩

/-- C5: when an order-number lookup finds the order but the caller either
supplied no email/phone identifier or supplied ones that do not verify
against the stored record, `execute` answers
`{success: true, found: true, verified: false, message: ...}` and exposes
no order contents: the `order` key (items, totals, addresses) is absent,
as are `orders` and `count`.  (When no identifier is supplied at all,
`verify_customer` is false by definition, so the single hypothesis covers
both cases of the claim.) -/
theorem c5_unverified_lookup_returns_no_order_contents
    (onum : String) (ce cp : Option String)
    (lookupN : String → Except String (Option OrderLookup.OrderLookupResult))
    (lookupE : String → Except String (List OrderLookup.OrderLookupResult))
    (r : OrderLookup.OrderLookupResult)
    (h1 : onum ≠ "")
    (h2 : lookupN onum = .ok (some r))
    (h3 : OrderLookup.verify_customer r ce cp = false) :
    (OrderLookup.execute (some onum) ce cp lookupN lookupE).success = true ∧
    (OrderLookup.execute (some onum) ce cp lookupN lookupE).found = some true ∧
    (OrderLookup.execute (some onum) ce cp lookupN lookupE).verified = some false ∧
    (OrderLookup.execute (some onum) ce cp lookupN lookupE).order = none ∧
    (OrderLookup.execute (some onum) ce cp lookupN lookupE).orders = none ∧
    (OrderLookup.execute (some onum) ce cp lookupN lookupE).message.isSome = true := by
  have hon : OrderLookup.truthyStr (some onum) = true := by
    simp [OrderLookup.truthyStr, h1]
  cases hce : OrderLookup.truthyStr ce <;>
    cases hcp : OrderLookup.truthyStr cp <;>
      simp [OrderLookup.execute, hon, hce, hcp, h2, h3]

/-- Witness for C5: order 12345 is on file for `anna@example.com`; a
caller presenting `bob@example.com` gets `verified: false` and no order
payload. -/
theorem c5_unverified_lookup_witness :
    (OrderLookup.execute (some "12345") (some "bob@example.com") none
        Examples.lookupN12345 Examples.lookupENever).success = true ∧
    (OrderLookup.execute (some "12345") (some "bob@example.com") none
        Examples.lookupN12345 Examples.lookupENever).found = some true ∧
    (OrderLookup.execute (some "12345") (some "bob@example.com") none
        Examples.lookupN12345 Examples.lookupENever).verified = some false ∧
    (OrderLookup.execute (some "12345") (some "bob@example.com") none
        Examples.lookupN12345 Examples.lookupENever).order = none ∧
    (OrderLookup.execute (some "12345") (some "bob@example.com") none
        Examples.lookupN12345 Examples.lookupENever).orders = none ∧
    (OrderLookup.execute (some "12345") (some "bob@example.com") none
        Examples.lookupN12345 Examples.lookupENever).message.isSome = true :=
  c5_unverified_lookup_returns_no_order_contents "12345" (some "bob@example.com")
    none Examples.lookupN12345 Examples.lookupENever Examples.order12345
    (by decide) (by rfl) (by decide)

/-- C10: a call carrying a `customer_email` but no `order_number` takes
the email branch: the result is `{success: true, orders: [...], count: n}`
where the orders are the full `to_dict` payloads (items, totals, shipping
address) of the store page hits whose billing email matches exactly, at
most five of them (the WooCommerce request uses `per_page=5`), and no
verification step runs — the result carries no `verified` key. -/
theorem c10_email_lookup_returns_orders_unverified
    (email : String) (cp : Option String)
    (page : List OrderLookup.OrderLookupResult)
    (lookupN : String → Except String (Option OrderLookup.OrderLookupResult))
    (hemail : email ≠ "") (hpage : page.length ≤ 5) :
    (OrderLookup.execute none (some email) cp lookupN
        (fun e => .ok (OrderLookup.wc_lookup_by_email page e)))
      = { success := true,
          orders := some ((OrderLookup.wc_lookup_by_email page email).map
            OrderLookup.OrderLookupResult.to_dict),
          count := some (OrderLookup.wc_lookup_by_email page email).length } ∧
    (OrderLookup.wc_lookup_by_email page email).length ≤ 5 ∧
    ∀ o ∈ OrderLookup.wc_lookup_by_email page email,
      OrderLookup.pyLower (o.customer_email.getD "") = OrderLookup.pyLower email := by
  refine ⟨?_, ?_, ?_⟩
  · simp [OrderLookup.execute, OrderLookup.truthyStr, hemail]
  · exact le_trans (List.length_filter_le _ _) hpage
  · intro o ho
    simpa using (List.mem_filter.mp ho).2

/-- Witness for C10: the three-order store page yields the two orders
billed to `anna@example.com`, with full contents and no `verified` key. -/
theorem c10_email_lookup_witness :
    (OrderLookup.execute none (some "anna@example.com") none
        Examples.lookupN12345
        (fun e => .ok (OrderLookup.wc_lookup_by_email Examples.wcPage e)))
      = { success := true,
          orders := some ((OrderLookup.wc_lookup_by_email Examples.wcPage
            "anna@example.com").map OrderLookup.OrderLookupResult.to_dict),
          count := some (OrderLookup.wc_lookup_by_email Examples.wcPage
            "anna@example.com").length } ∧
    (OrderLookup.wc_lookup_by_email Examples.wcPage "anna@example.com").length ≤ 5 ∧
    ∀ o ∈ OrderLookup.wc_lookup_by_email Examples.wcPage "anna@example.com",
      OrderLookup.pyLower (o.customer_email.getD "")
        = OrderLookup.pyLower "anna@example.com" :=
  c10_email_lookup_returns_orders_unverified "anna@example.com" none
    Examples.wcPage Examples.lookupN12345 (by decide) (by decide)

/-- Helper for C8: any id recorded in first-occurrence order does occur. -/
theorem filter_ne_nil_of_mem_firstOccIds :
    ∀ (ps : List ProductSync.SourceProduct) (i : String),
      i ∈ ProductSync.firstOccIds ps →
      ps.filter (fun p => p.id = i) ≠ [] := by
  intro ps
  induction ps with
  | nil => intro i hi; simp [ProductSync.firstOccIds] at hi
  | cons p rest ih =>
      intro i hi
      rw [ProductSync.firstOccIds] at hi
      rcases List.mem_cons.mp hi with h | h
      · subst h
        simp [List.filter_cons]
      · have hmem : i ∈ ProductSync.firstOccIds rest := (List.mem_filter.mp h).1
        have := ih i hmem
        by_cases hpi : p.id = i
        · simp [List.filter_cons, hpi]
        · simpa [List.filter_cons, hpi] using this

/-- Helper for C8: the dict key order carries no duplicates. -/
theorem nodup_firstOccIds :
    ∀ ps : List ProductSync.SourceProduct,
      (ProductSync.firstOccIds ps).Nodup := by
  intro ps
  induction ps with
  | nil => simp [ProductSync.firstOccIds]
  | cons p rest ih =>
      rw [ProductSync.firstOccIds, List.nodup_cons]
      constructor
      · intro hmem
        have := (List.mem_filter.mp hmem).2
        simp at this
      · exact ih.filter _

/-- Helper for C8: de-duplication keeps exactly one product per first-seen
external id, in key order. -/
theorem dedupe_map_id (ps : List ProductSync.SourceProduct) :
    (ProductSync.dedupeKeepLast ps).map (fun p => p.id)
      = ProductSync.firstOccIds ps := by
  rw [ProductSync.dedupeKeepLast]
  have main : ∀ l : List String,
      (∀ i ∈ l, ps.filter (fun p => p.id = i) ≠ []) →
      (l.filterMap (fun i => (ps.filter (fun p => p.id = i)).getLast?)).map
          (fun p => p.id) = l := by
    intro l
    induction l with
    | nil => intro _; simp
    | cons i rest ih =>
        intro hl
        have hne := hl i (by simp)
        have hsome : ((ps.filter (fun p => p.id = i)).getLast?).isSome = true :=
          List.getLast?_isSome.mpr hne
        obtain ⟨q, hq⟩ := Option.isSome_iff_exists.mp hsome
        rw [List.filterMap_cons]
        simp only [hq, List.map_cons]
        have hqid : q.id = i := by
          have hmem : q ∈ ps.filter (fun p => p.id = i) :=
            List.mem_of_mem_getLast? hq
          simpa using (List.mem_filter.mp hmem).2
        rw [hqid, ih (fun j hj => hl j (by simp [hj]))]
  exact main _ (fun i hi => filter_ne_nil_of_mem_firstOccIds ps i hi)

/-- Helper for C8: uniqueness of external ids in the de-duplicated
product list. -/
theorem nodup_dedupe_ids (ps : List ProductSync.SourceProduct) :
    ((ProductSync.dedupeKeepLast ps).map (fun p => p.id)).Nodup := by
  rw [dedupe_map_id]
  exact nodup_firstOccIds ps

/-- Helper for C8: filtering away only rows the search predicate rejects
leaves the first hit alone. -/
theorem find?_filter_of_imp {α : Type} (p q : α → Bool) :
    ∀ l : List α, (∀ a ∈ l, p a = true → q a = true) →
      (l.filter q).find? p = l.find? p := by
  intro l
  induction l with
  | nil => intro _; rfl
  | cons a t ih =>
      intro h
      by_cases hq : q a = true
      · rw [List.filter_cons_of_pos hq, List.find?_cons, List.find?_cons]
        cases hp : p a
        · exact ih (fun b hb => h b (by simp [hb]))
        · rfl
      · have hp : p a = false := by
          cases hpa : p a
          · rfl
          · exact absurd (h a (by simp) hpa) hq
        rw [List.filter_cons_of_neg hq, List.find?_cons, hp]
        exact ih (fun b hb => h b (by simp [hb]))

/-- Helper for C8: a search by external id commutes with a map that
preserves external ids. -/
theorem find?_map_ext (f : ProductSync.ProductRow → ProductSync.ProductRow)
    (hf : ∀ q, (f q).external_id = q.external_id) (i : String) :
    ∀ l : List ProductSync.ProductRow,
      (l.map f).find? (fun r => r.external_id = i)
        = (l.find? (fun r => r.external_id = i)).map f := by
  intro l
  induction l with
  | nil => simp
  | cons a t ih =>
      by_cases ha : a.external_id = i
      · simp [List.find?_cons, hf, ha]
      · simp [List.find?_cons, hf, ha, ih]

/-- Helper for C8: upserting products whose ids all differ from `i` does
not move the row found at `i`. -/
theorem syncUpserts_find_untouched :
    ∀ (l : List ProductSync.SourceProduct) (db : List ProductSync.ProductRow)
      (s : ProductSync.SyncStats) (i : String),
      (∀ p ∈ l, p.id ≠ i) →
      ((ProductSync.syncUpserts db s l).1.find? (fun r => r.external_id = i))
        = db.find? (fun r => r.external_id = i) := by
  intro l
  induction l with
  | nil => intro db s i _; rfl
  | cons p rest ih =>
      intro db s i hl
      have hpi : p.id ≠ i := hl p (by simp)
      have hrest : ∀ q ∈ rest, q.id ≠ i := fun q hq => hl q (by simp [hq])
      rw [ProductSync.syncUpserts]
      cases hfind : db.find? (fun q => q.external_id = p.id) with
      | none =>
          simp only [hfind]
          rw [ih _ _ _ hrest, List.find?_append]
          have hnone : List.find? (fun r => r.external_id = i)
              [ProductSync.newRow p] = none := by
            simp [ProductSync.newRow, hpi]
          rw [hnone, Option.or_none]
      | some q =>
          simp only [hfind]
          by_cases hh : q.content_hash = ProductSync.compute_content_hash p.data
          · rw [if_pos hh]
            exact ih _ _ _ hrest
          · rw [if_neg hh, ih _ _ _ hrest]
            rw [find?_map_ext _
                  (fun r => by
                    by_cases hre : r.external_id = p.id <;>
                      simp [ProductSync.updateRow, hre]) i db]
            cases hfi : db.find? (fun r => r.external_id = i) with
            | none => rfl
            | some r =>
                have hri : r.external_id = i := by
                  simpa using List.find?_some hfi
                have hrp : ¬ r.external_id = p.id := by
                  rw [hri]; exact fun hcon => hpi hcon.symm
                simp [hrp]

/-- Helper for C8: after the upsert pass, the row found at each unique
product's external id carries exactly that product's recomputed content
hash. -/
theorem syncUpserts_find_hash :
    ∀ (l : List ProductSync.SourceProduct) (db : List ProductSync.ProductRow)
      (s : ProductSync.SyncStats),
      (l.map (fun p => p.id)).Nodup →
      ∀ p ∈ l,
        (((ProductSync.syncUpserts db s l).1.find?
            (fun r => r.external_id = p.id)).map (fun r => r.content_hash))
          = some (ProductSync.compute_content_hash p.data) := by
  intro l
  induction l with
  | nil => intro db s _ p hp; simp at hp
  | cons q rest ih =>
      intro db s hnd p hp
      rw [List.map_cons, List.nodup_cons] at hnd
      have hqrest : ∀ r ∈ rest, r.id ≠ q.id := by
        intro r hr hcon
        exact hnd.1 (hcon ▸ List.mem_map_of_mem (fun p => p.id) hr)
      rcases List.mem_cons.mp hp with rfl | hmem
      · rw [ProductSync.syncUpserts]
        cases hfind : db.find? (fun r => r.external_id = p.id) with
        | none =>
            simp only [hfind]
            rw [syncUpserts_find_untouched rest _ _ p.id hqrest]
            rw [List.find?_append, hfind]
            simp [ProductSync.newRow]
        | some r =>
            by_cases hh : r.content_hash
                = ProductSync.compute_content_hash p.data
            · simp only [hfind, if_pos hh]
              rw [syncUpserts_find_untouched rest _ _ p.id hqrest, hfind]
              simp [hh]
            · simp only [hfind, if_neg hh]
              rw [syncUpserts_find_untouched rest _ _ p.id hqrest]
              rw [find?_map_ext _
                    (fun r => by
                      by_cases hre : r.external_id = p.id <;>
                        simp [ProductSync.updateRow, hre]) p.id db]
              rw [hfind]
              have hre : r.external_id = p.id := by
                simpa using List.find?_some hfind
              simp [hre, ProductSync.updateRow]
      · cases hfind : db.find? (fun r => r.external_id = q.id) with
        | none =>
            rw [ProductSync.syncUpserts]
            simp only [hfind]
            exact ih _ _ hnd.2 p hmem
        | some r =>
            rw [ProductSync.syncUpserts]
            simp only [hfind]
            by_cases hh : r.content_hash
                = ProductSync.compute_content_hash q.data
            · rw [if_pos hh]
              exact ih _ _ hnd.2 p hmem
            · rw [if_neg hh]
              exact ih _ _ hnd.2 p hmem

/-- Helper for C8: when every product's stored hash already matches, the
upsert pass is a pure no-op that counts everything as unchanged. -/
theorem syncUpserts_all_unchanged :
    ∀ (l : List ProductSync.SourceProduct) (db : List ProductSync.ProductRow)
      (s : ProductSync.SyncStats),
      (∀ p ∈ l,
        ((db.find? (fun r => r.external_id = p.id)).map
            (fun r => r.content_hash))
          = some (ProductSync.compute_content_hash p.data)) →
      ProductSync.syncUpserts db s l
        = (db, { s with unchanged := s.unchanged + l.length }) := by
  intro l
  induction l with
  | nil => intro db s _; simp [ProductSync.syncUpserts]
  | cons p rest ih =>
      intro db s hl
      have hp := hl p (by simp)
      obtain ⟨r, hfind, hhash⟩ := Option.map_eq_some'.mp hp
      rw [ProductSync.syncUpserts]
      simp only [hfind, if_pos hhash]
      rw [ih db _ (fun q hq => hl q (by simp [hq]))]
      have : s.unchanged + 1 + rest.length = s.unchanged + (rest.length + 1) := by
        omega
      simp [this]

/-- Helper for C8: Stage B marking changes no external id and no content
hash. -/
theorem markBatch_core (agent : String)
    (db batch : List ProductSync.ProductRow) :
    (RagManager.markBatch agent db batch).map ProductSync.rowCore
      = db.map ProductSync.rowCore := by
  rw [RagManager.markBatch, List.map_map]
  have : (ProductSync.rowCore ∘ fun r =>
      if batch.any (fun b => b.external_id = r.external_id) then
        { r with rag_indexed := true,
                 qdrant_point_id := some (RagManager.point_id agent r.external_id) }
      else r) = ProductSync.rowCore := by
    funext r
    by_cases h : batch.any (fun b => b.external_id = r.external_id) = true
    · rw [Function.comp_apply, if_pos h]
      rfl
    · rw [Function.comp_apply, if_neg h]
  rw [this]

/-- Helper for C8: the whole Stage B loop changes no external id and no
content hash. -/
theorem indexLoop_core (agent : String) (fail : List ProductSync.ProductRow → Bool)
    (bs : Nat) :
    ∀ (fuel : Nat) (st : RagManager.StageBState),
      ((RagManager.indexLoop agent fail bs fuel st).1.db).map ProductSync.rowCore
        = st.db.map ProductSync.rowCore := by
  intro fuel
  induction fuel with
  | zero => intro st; rfl
  | succ f ih =>
      intro st
      simp only [RagManager.indexLoop]
      by_cases hp : ((ProductSync.pendingOf st.db).take bs).isEmpty = true
      · rw [if_pos hp]
      · rw [if_neg hp]
        by_cases hf : fail ((ProductSync.pendingOf st.db).take bs) = true
        · rw [if_pos hf, ih]
        · rw [if_neg hf, ih]
          exact markBatch_core agent st.db _

/-- Helper for C8: a strict count comparison from a monotone implication
plus one witness that only the larger predicate accepts. -/
theorem countP_lt_of_witness {α : Type} (p q : α → Bool) :
    ∀ l : List α, (∀ a ∈ l, q a = true → p a = true) →
      ∀ a ∈ l, p a = true → q a = false → l.countP q < l.countP p := by
  intro l
  induction l with
  | nil => intro _ a ha; simp at ha
  | cons x t ih =>
      intro hmono a ha hpa hqa
      rw [List.countP_cons, List.countP_cons]
      rcases List.mem_cons.mp ha with rfl | hat
      · rw [hpa, hqa]
        have hle := List.countP_mono_left
          (fun b hb => hmono b (by simp [hb]) : ∀ b ∈ t, q b → p b)
        simpa using Nat.lt_succ_of_le hle
      · have hlt := ih (fun b hb => hmono b (by simp [hb])) a hat hpa hqa
        have hxq : q x = true → p x = true := hmono x (by simp)
        cases hqx : q x with
        | false => cases hpx : p x <;> simp <;> omega
        | true => rw [hxq hqx]; simpa using hlt

/-- Helper for C8: a successful batch strictly shrinks the pending set. -/
theorem pending_shrinks (agent : String) (db : List ProductSync.ProductRow)
    (bs : Nat) (hbs : 0 < bs)
    (hne : ¬((ProductSync.pendingOf db).take bs).isEmpty = true) :
    (ProductSync.pendingOf (RagManager.markBatch agent db
        ((ProductSync.pendingOf db).take bs))).length
      < (ProductSync.pendingOf db).length := by
  have hneL : ProductSync.pendingOf db ≠ [] := by
    intro h
    exact hne (by simp [h])
  have hL : (ProductSync.pendingOf (RagManager.markBatch agent db
      ((ProductSync.pendingOf db).take bs))).length
      = db.countP (fun r =>
          !(if ((ProductSync.pendingOf db).take bs).any
                (fun b => b.external_id = r.external_id) then
              { r with
                rag_indexed := true,
                qdrant_point_id := some (RagManager.point_id agent r.external_id) }
            else r).rag_indexed) := by
    rw [ProductSync.pendingOf, RagManager.markBatch, List.filter_map,
        List.length_map, List.countP_eq_length_filter]
    rfl
  have hR : (ProductSync.pendingOf db).length
      = db.countP (fun r => !r.rag_indexed) := by
    rw [ProductSync.pendingOf, List.countP_eq_length_filter]
  rw [hL, hR]
  obtain ⟨h0, t0, ht⟩ := List.exists_cons_of_ne_nil hneL
  have hh0 : h0 ∈ ProductSync.pendingOf db := by rw [ht]; simp
  have hh0f := List.mem_filter.mp hh0
  have hh0batch : h0 ∈ (ProductSync.pendingOf db).take bs := by
    rw [ht]
    cases bs with
    | zero => omega
    | succ n => simp [List.take]
  have hany : ((ProductSync.pendingOf db).take bs).any
      (fun b => b.external_id = h0.external_id) = true :=
    List.any_eq_true.mpr ⟨h0, hh0batch, by simp⟩
  refine countP_lt_of_witness _ _ db ?_ h0 hh0f.1 hh0f.2 ?_
  · intro a _ hqa
    by_cases hm : ((ProductSync.pendingOf db).take bs).any
        (fun b => b.external_id = a.external_id) = true
    · rw [if_pos hm] at hqa
      simp at hqa
    · rw [if_neg hm] at hqa
      exact hqa
  · rw [if_pos hany]
    simp

/-- Helper for C8: with no batch failures and fuel above the pending row
count, the Stage B loop reaches its normal exit with nothing left
pending. -/
theorem indexLoop_noFail_done (agent : String)
    (fail : List ProductSync.ProductRow → Bool)
    (hfail : ∀ b, fail b = false) (bs : Nat) (hbs : 0 < bs) :
    ∀ (fuel : Nat) (st : RagManager.StageBState),
      (ProductSync.pendingOf st.db).length < fuel →
      (RagManager.indexLoop agent fail bs fuel st).2 = true ∧
      ProductSync.pendingOf
          ((RagManager.indexLoop agent fail bs fuel st).1.db)
        = [] := by
  intro fuel
  induction fuel with
  | zero => intro st h; omega
  | succ f ih =>
      intro st h
      by_cases hp : ((ProductSync.pendingOf st.db).take bs).isEmpty = true
      · have hpe : ProductSync.pendingOf st.db = [] := by
          cases hpd : ProductSync.pendingOf st.db with
          | nil => rfl
          | cons a t =>
              rw [hpd] at hp
              cases bs with
              | zero => omega
              | succ n => simp [List.take] at hp
        have hloop : RagManager.indexLoop agent fail bs (f + 1) st
            = (st, true) := by
          simp only [RagManager.indexLoop]
          rw [if_pos hp]
        rw [hloop]
        exact ⟨rfl, hpe⟩
      · have hloop : RagManager.indexLoop agent fail bs (f + 1) st
            = RagManager.indexLoop agent fail bs f
                { st with
                  db := RagManager.markBatch agent st.db
                    ((ProductSync.pendingOf st.db).take bs),
                  vs := st.vs ++ RagManager.batchPointIds agent
                    ((ProductSync.pendingOf st.db).take bs),
                  indexed := st.indexed
                    + ((ProductSync.pendingOf st.db).take bs).length,
                  batches := st.batches + 1 } := by
          simp only [RagManager.indexLoop]
          rw [if_neg hp, hfail, if_neg Bool.false_ne_true]
        rw [hloop]
        apply ih
        have hdec := pending_shrinks agent st.db bs hbs hp
        show (ProductSync.pendingOf (RagManager.markBatch agent st.db
            ((ProductSync.pendingOf st.db).take bs))).length < f
        omega

/-- Helper for C8: two tables equal up to `rowCore` answer every
hash-at-id query identically. -/
theorem find?_hash_of_core_eq (i : String) :
    ∀ (l l' : List ProductSync.ProductRow),
      l.map ProductSync.rowCore = l'.map ProductSync.rowCore →
      ((l.find? (fun r => r.external_id = i)).map (fun r => r.content_hash))
        = ((l'.find? (fun r => r.external_id = i)).map
            (fun r => r.content_hash)) := by
  intro l
  induction l with
  | nil =>
      intro l' h
      cases l' with
      | nil => rfl
      | cons a t => simp at h
  | cons a t ih =>
      intro l' h
      cases l' with
      | nil => simp at h
      | cons b t' =>
          simp only [List.map_cons, List.cons.injEq] at h
          have hab : a.external_id = b.external_id
              ∧ a.content_hash = b.content_hash := by
            have h1 := h.1
            simp only [ProductSync.rowCore, Prod.mk.injEq] at h1
            exact h1
          by_cases hai : a.external_id = i
          · have hbi : b.external_id = i := by rw [← hab.1]; exact hai
            simp [List.find?_cons, hai, hbi, hab.2]
          · have hbi : ¬ b.external_id = i := by rw [← hab.1]; exact hai
            simpa [List.find?_cons, hai, hbi] using ih t' h.2

/-- Helper for C8: `sync_products_to_db` written out as a pair. -/
theorem sync_unfold (db : List ProductSync.ProductRow)
    (ps : List ProductSync.SourceProduct) :
    ProductSync.sync_products_to_db db ps
      = ((ProductSync.syncUpserts db (ProductSync.initStats ps.length)
            (ProductSync.dedupeKeepLast ps)).1.filter
            (fun r => ((ProductSync.dedupeKeepLast ps).map
              (fun p => p.id)).contains r.external_id),
         { (ProductSync.syncUpserts db (ProductSync.initStats ps.length)
              (ProductSync.dedupeKeepLast ps)).2 with
           deleted := (db.filter (fun r =>
             !((ProductSync.dedupeKeepLast ps).map
                 (fun p => p.id)).contains r.external_id)).length }) := rfl

/-- Helper for C8: a sync whose every unique product already matches the
stored hash, against a table whose rows are all in the fetched id set, is
a pure no-op: nothing new, updated or deleted, everything unchanged. -/
theorem sync_of_unchanged (db : List ProductSync.ProductRow)
    (ps : List ProductSync.SourceProduct)
    (hhash : ∀ p ∈ ProductSync.dedupeKeepLast ps,
        ((db.find? (fun r => r.external_id = p.id)).map
            (fun r => r.content_hash))
          = some (ProductSync.compute_content_hash p.data))
    (hseen : ∀ r ∈ db,
        ((ProductSync.dedupeKeepLast ps).map (fun p => p.id)).contains
            r.external_id = true) :
    ProductSync.sync_products_to_db db ps
      = (db, { new := 0, updated := 0,
               unchanged := (ProductSync.dedupeKeepLast ps).length,
               deleted := 0, total := ps.length }) := by
  have hfold := syncUpserts_all_unchanged (ProductSync.dedupeKeepLast ps) db
    (ProductSync.initStats ps.length) hhash
  have hdel : (db.filter (fun r =>
      !((ProductSync.dedupeKeepLast ps).map (fun p => p.id)).contains
        r.external_id)) = [] := by
    rw [List.filter_eq_nil_iff]
    intro r hr
    rw [hseen r hr]
    simp
  rw [sync_unfold, hfold, hdel]
  refine Prod.ext ?_ ?_
  · exact List.filter_eq_self.mpr hseen
  · simp [ProductSync.initStats]

/-- C8: running a full sync twice against an unchanged source is
idempotent.  After the first run's Stage A and a fully successful Stage B
(enough fuel, no batch failures), the second run's Stage A reports
`new = 0`, `updated = 0`, `deleted = 0` and `unchanged` equal to the
number of unique products — every recomputed content hash matches the
stored one — and Stage B finds zero rows with `rag_indexed = false` left
to index. -/
theorem c8_full_sync_twice_idempotent
    (agent : String) (db0 : List ProductSync.ProductRow)
    (ps : List ProductSync.SourceProduct) (fuel : Nat)
    (hfuel : (ProductSync.pendingOf
        (ProductSync.sync_products_to_db db0 ps).1).length < fuel) :
    (RagManager.indexLoop agent (fun _ => false) 500 fuel
        { db := (ProductSync.sync_products_to_db db0 ps).1, vs := [],
          indexed := 0, failed := 0, batches := 0 }).2 = true ∧
    ProductSync.sync_products_to_db
        (RagManager.indexLoop agent (fun _ => false) 500 fuel
          { db := (ProductSync.sync_products_to_db db0 ps).1, vs := [],
            indexed := 0, failed := 0, batches := 0 }).1.db ps
      = ((RagManager.indexLoop agent (fun _ => false) 500 fuel
            { db := (ProductSync.sync_products_to_db db0 ps).1, vs := [],
              indexed := 0, failed := 0, batches := 0 }).1.db,
         { new := 0, updated := 0,
           unchanged := (ProductSync.dedupeKeepLast ps).length,
           deleted := 0, total := ps.length }) ∧
    ProductSync.pendingOf
        (ProductSync.sync_products_to_db
          (RagManager.indexLoop agent (fun _ => false) 500 fuel
            { db := (ProductSync.sync_products_to_db db0 ps).1, vs := [],
              indexed := 0, failed := 0, batches := 0 }).1.db ps).1 = [] := by
  set db1 := (ProductSync.sync_products_to_db db0 ps).1 with hdb1def
  set st0 : RagManager.StageBState :=
    { db := db1, vs := [], indexed := 0, failed := 0, batches := 0 } with hst0def
  set dbB := (RagManager.indexLoop agent (fun _ => false) 500 fuel st0).1.db
    with hdbBdef
  have hB := indexLoop_noFail_done agent (fun _ => false) (fun b => rfl) 500
    (by omega) fuel st0 hfuel
  have hcore : dbB.map ProductSync.rowCore = db1.map ProductSync.rowCore := by
    rw [hdbBdef]
    exact indexLoop_core agent (fun _ => false) 500 fuel st0
  have hhash1 : ∀ p ∈ ProductSync.dedupeKeepLast ps,
      ((db1.find? (fun r => r.external_id = p.id)).map
          (fun r => r.content_hash))
        = some (ProductSync.compute_content_hash p.data) := by
    intro p hp
    have hdb1eq : db1 = (ProductSync.syncUpserts db0
        (ProductSync.initStats ps.length) (ProductSync.dedupeKeepLast ps)).1.filter
        (fun r => ((ProductSync.dedupeKeepLast ps).map (fun p => p.id)).contains
          r.external_id) := rfl
    rw [hdb1eq]
    rw [find?_filter_of_imp _ _ _ (fun a _ hpa => by
      have ha : a.external_id = p.id := by simpa using hpa
      rw [ha]
      exact List.elem_eq_true_of_mem
        (List.mem_map_of_mem (fun p => p.id) hp))]
    exact syncUpserts_find_hash (ProductSync.dedupeKeepLast ps) db0
      (ProductSync.initStats ps.length) (nodup_dedupe_ids ps) p hp
  have hhashB : ∀ p ∈ ProductSync.dedupeKeepLast ps,
      ((dbB.find? (fun r => r.external_id = p.id)).map
          (fun r => r.content_hash))
        = some (ProductSync.compute_content_hash p.data) := by
    intro p hp
    rw [find?_hash_of_core_eq p.id dbB db1 hcore]
    exact hhash1 p hp
  have hseen1 : ∀ r ∈ db1,
      ((ProductSync.dedupeKeepLast ps).map (fun p => p.id)).contains
        r.external_id = true := by
    intro r hr
    have hdb1eq : db1 = (ProductSync.syncUpserts db0
        (ProductSync.initStats ps.length) (ProductSync.dedupeKeepLast ps)).1.filter
        (fun r => ((ProductSync.dedupeKeepLast ps).map (fun p => p.id)).contains
          r.external_id) := rfl
    rw [hdb1eq] at hr
    exact (List.mem_filter.mp hr).2
  have hextmap : dbB.map (fun r => r.external_id)
      = db1.map (fun r => r.external_id) := by
    have h := congrArg (List.map Prod.fst) hcore
    rw [List.map_map, List.map_map] at h
    have hfun : (Prod.fst ∘ ProductSync.rowCore)
        = (fun r : ProductSync.ProductRow => r.external_id) :=
      funext fun r => rfl
    rwa [hfun] at h
  have hseenB : ∀ r ∈ dbB,
      ((ProductSync.dedupeKeepLast ps).map (fun p => p.id)).contains
        r.external_id = true := by
    intro r hr
    have hx : r.external_id ∈ db1.map (fun r => r.external_id) := by
      rw [← hextmap]
      exact List.mem_map_of_mem _ hr
    obtain ⟨r2, hr2, hre⟩ := List.mem_map.mp hx
    rw [← hre]
    exact hseen1 r2 hr2
  have hsecond := sync_of_unchanged dbB ps hhashB hseenB
  refine ⟨hB.1, hsecond, ?_⟩
  rw [hsecond]
  exact hB.2

/-- Witness for C8: an empty table synced twice from a one-product
source (fuel 2 covers the single pending row). -/
theorem c8_full_sync_twice_idempotent_witness :
    (RagManager.indexLoop "agent1" (fun _ => false) 500 2
        { db := (ProductSync.sync_products_to_db []
            [{ id := "A", data := Examples.dataA }]).1, vs := [],
          indexed := 0, failed := 0, batches := 0 }).2 = true ∧
    ProductSync.sync_products_to_db
        (RagManager.indexLoop "agent1" (fun _ => false) 500 2
          { db := (ProductSync.sync_products_to_db []
              [{ id := "A", data := Examples.dataA }]).1, vs := [],
            indexed := 0, failed := 0, batches := 0 }).1.db
        [{ id := "A", data := Examples.dataA }]
      = ((RagManager.indexLoop "agent1" (fun _ => false) 500 2
            { db := (ProductSync.sync_products_to_db []
                [{ id := "A", data := Examples.dataA }]).1, vs := [],
              indexed := 0, failed := 0, batches := 0 }).1.db,
         { new := 0, updated := 0,
           unchanged := (ProductSync.dedupeKeepLast
             [{ id := "A", data := Examples.dataA }]).length,
           deleted := 0, total := 1 }) ∧
    ProductSync.pendingOf
        (ProductSync.sync_products_to_db
          (RagManager.indexLoop "agent1" (fun _ => false) 500 2
            { db := (ProductSync.sync_products_to_db []
                [{ id := "A", data := Examples.dataA }]).1, vs := [],
              indexed := 0, failed := 0, batches := 0 }).1.db
          [{ id := "A", data := Examples.dataA }]).1 = [] :=
  c8_full_sync_twice_idempotent "agent1" []
    [{ id := "A", data := Examples.dataA }] 2 (by decide)

end Theorems
